import Mathlib

/-!
Path-query cache of the Spring engine (`rts/Sim/Path/Default/PathCache.cpp`)

A shallow embedding of `CPathCache` and the properties of its operations
`AddPath`, `GetCachedPath`, `Update` and `RemoveFrontQueItem`.

Modelling conventions
* `std::map<unsigned int, CacheItem*>` is a key-ordered association list with
  one binding per key; `find`, `operator[]=` and `erase` are `mapFind`,
  `mapInsert` and `mapErase`.
* `std::deque<CacheQue>` is a list whose head is `front()`; `push_back` appends.
* `gs->frameNum` is an explicit argument of the operations that read it.
* `PathCache.h` is not part of the sources at hand.  What `AddPath` and
  `GetCachedPath` use from it is either a field of `Env` (`GetHash`,
  `GAME_SPEED`) or modelled from the specification (`HashCollision`,
  `GetCacheHitPercentage`, the `IPath` types).  The three statistics counters
  are natural numbers.
* `goalRadius` is a `float` that the cache only copies and compares; it is
  modelled by an exact numeric value (NaN is outside the model).
* Popping an empty queue and a failing `assert` are explicit faults.
* The `while` loop of `Update` runs on fuel, one unit per test of its
  condition; `Update` supplies `length + 1` units, which always suffice.
-/

set_option maxRecDepth 100000

namespace PathCache

/-- Integer grid coordinate (`int2`). -/
structure int2 where
  x : Int
  y : Int
deriving DecidableEq, Repr

namespace IPath

/-- Modelled from the spec: `IPath::SearchResult` is declared outside the
sources at hand; the specification lists it as the enumeration
`{Ok, PartialOk, CannotReach, ...}` produced by the search component. -/
inductive SearchResult where
  | Ok
  | PartialOk
  | CannotReach
  | Error
deriving DecidableEq, Repr

/-- Modelled from the spec: `IPath::Path` is declared outside the sources at
hand; the specification describes it as an owned opaque sequence of
waypoints. -/
structure Path where
  waypoints : List int2
deriving DecidableEq, Repr

end IPath

/-- The four arguments `(startBlock, goalBlock, goalRadius, pathType)` that
identify a path query; `AddPath`, `GetCachedPath`, `GetHash` and
`HashCollision` all receive exactly these four values. -/
structure CacheKey where
  startBlock : int2
  goalBlock : int2
  goalRadius : Int
  pathType : Int
deriving DecidableEq, Repr

/-- The record `CacheItem` filled in by `AddPath` (lines 51-57). -/
structure CacheItem where
  path : IPath.Path
  result : IPath.SearchResult
  startBlock : int2
  goalBlock : int2
  goalRadius : Int
  pathType : Int
deriving DecidableEq, Repr

/-- The record `CacheQue` pushed by `AddPath` (lines 61-65). -/
structure CacheQue where
  hash : Nat
  timeout : Int
deriving DecidableEq, Repr

/-- The container type of `cachedPaths`. -/
abbrev CachedPathMap := List (Nat × CacheItem)

/-- The lookup `cachedPaths.find(hash)`: the item bound to `hash`, if any. -/
def mapFind : CachedPathMap → Nat → Option CacheItem
  | [], _ => none
  | (k, v) :: rest, h => if k = h then some v else mapFind rest h

/-- The removal `cachedPaths.erase(it)` of the binding of `hash`. -/
def mapErase (m : CachedPathMap) (h : Nat) : CachedPathMap :=
  m.filter (fun e => decide (e.1 ≠ h))

/-- The assignment `cachedPaths[hash] = ci`: key-ordered insertion, replacing
the item of an existing binding. -/
def mapInsert : CachedPathMap → Nat → CacheItem → CachedPathMap
  | [], h, ci => [(h, ci)]
  | (k, v) :: rest, h, ci =>
    if h < k then (h, ci) :: (k, v) :: rest
    else if h = k then (k, ci) :: rest
    else (k, v) :: mapInsert rest h ci

/-- The data members of `CPathCache`. -/
structure CPathCache where
  blocksX : Int
  blocksZ : Int
  numCacheHits : Nat
  numCacheMisses : Nat
  numHashCollisions : Nat
  cachedPaths : CachedPathMap
  cacheQue : List CacheQue
deriving DecidableEq, Repr

/-- The constant `MAX_CACHE_QUEUE_SIZE` (line 10). -/
def MAX_CACHE_QUEUE_SIZE : Nat := 100

/-- What the cache code takes from its surroundings.  `GetHash` is the member
function of `PathCache.h` (pure in the key for one cache instance),
`GAME_SPEED` the engine constant, and `maxQueueSize` the value of
`MAX_CACHE_QUEUE_SIZE`, kept variable so that the capacity scenarios of the
specification can be stated; `maxQueueSize := MAX_CACHE_QUEUE_SIZE` is the
program as compiled. -/
structure Env where
  GetHash : CacheKey → Nat
  GAME_SPEED : Int
  maxQueueSize : Nat

/-- The ways an operation can leave defined behaviour. -/
inductive Fault where
  | emptyQueue
  | assertFailed
  | outOfFuel
deriving DecidableEq, Repr

/-- The constructor `CPathCache::CPathCache` (lines 12-20). -/
def CPathCache.new (blocksX blocksZ : Int) : CPathCache :=
  { blocksX := blocksX, blocksZ := blocksZ,
    numCacheHits := 0, numCacheMisses := 0, numHashCollisions := 0,
    cachedPaths := [], cacheQue := [] }

/-- The member `RemoveFrontQueItem` (lines 101-110). -/
def RemoveFrontQueItem (s : CPathCache) : Except Fault CPathCache :=
  match s.cacheQue with
  | [] => .error .emptyQueue
  | cq :: rest =>
    match mapFind s.cachedPaths cq.hash with
    | none => .error .assertFailed
    | some _ =>
      .ok { s with cachedPaths := mapErase s.cachedPaths cq.hash, cacheQue := rest }

/-- The capacity check that opens `AddPath` (lines 39-40). -/
def capacityCheck (env : Env) (s : CPathCache) : Except Fault CPathCache :=
  if s.cacheQue.length > env.maxQueueSize then RemoveFrontQueItem s else .ok s

/-- Modelled from the spec: `HashCollision` is defined in `PathCache.h`,
outside the sources at hand.  The specification separates a stored entry
"whose key fields equal `key` exactly" (no collision) from one "whose key
fields differ from `key`" (collision). -/
def HashCollision (ci : CacheItem) (k : CacheKey) : Bool :=
  decide (ci.startBlock ≠ k.startBlock) || decide (ci.goalBlock ≠ k.goalBlock)
    || decide (ci.goalRadius ≠ k.goalRadius) || decide (ci.pathType ≠ k.pathType)

/-- The item built by `AddPath` (lines 51-57). -/
def CacheItem.make (path : IPath.Path) (result : IPath.SearchResult) (k : CacheKey) :
    CacheItem :=
  { path := path, result := result, startBlock := k.startBlock, goalBlock := k.goalBlock,
    goalRadius := k.goalRadius, pathType := k.pathType }

/-- The member `AddPath` (lines 31-67); the Boolean is its return value. -/
def AddPath (env : Env) (frameNum : Int) (path : IPath.Path) (result : IPath.SearchResult)
    (k : CacheKey) (s : CPathCache) : Except Fault (Bool × CPathCache) :=
  match capacityCheck env s with
  | .error e => .error e
  | .ok s0 =>
    let hash := env.GetHash k
    let cols := s0.numHashCollisions
    match mapFind s0.cachedPaths hash with
    | some ci =>
      let s1 := { s0 with
        numHashCollisions := s0.numHashCollisions + (if HashCollision ci k then 1 else 0) }
      .ok (s1.numHashCollisions != cols, s1)
    | none =>
      .ok (false, { s0 with
        cachedPaths := mapInsert s0.cachedPaths hash (CacheItem.make path result k),
        cacheQue := s0.cacheQue ++ [{ hash := hash, timeout := frameNum + env.GAME_SPEED * 7 }] })

/-- The member `GetCachedPath` (lines 69-93); `none` is the `NULL` result. -/
def GetCachedPath (env : Env) (k : CacheKey) (s : CPathCache) :
    Option CacheItem × CPathCache :=
  match mapFind s.cachedPaths (env.GetHash k) with
  | none => (none, { s with numCacheMisses := s.numCacheMisses + 1 })
  | some ci =>
    if ci.startBlock ≠ k.startBlock then
      (none, { s with numCacheMisses := s.numCacheMisses + 1 })
    else if ci.goalBlock ≠ k.goalBlock then
      (none, { s with numCacheMisses := s.numCacheMisses + 1 })
    else if ci.pathType ≠ k.pathType then
      (none, { s with numCacheMisses := s.numCacheMisses + 1 })
    else
      (some ci, { s with numCacheHits := s.numCacheHits + 1 })

/-- The `while` loop of `Update` (lines 97-98), one test of the loop condition
per unit of fuel. -/
def UpdateLoop (frameNum : Int) : Nat → CPathCache → Except Fault CPathCache
  | 0, _ => .error .outOfFuel
  | fuel + 1, s =>
    match s.cacheQue with
    | [] => .ok s
    | cq :: _ =>
      if cq.timeout < frameNum then
        match RemoveFrontQueItem s with
        | .error e => .error e
        | .ok s' => UpdateLoop frameNum fuel s'
      else .ok s

/-- The member `Update` (lines 95-99).  The loop condition is tested at most
once more than there are records in the queue. -/
def Update (frameNum : Int) (s : CPathCache) : Except Fault CPathCache :=
  UpdateLoop frameNum (s.cacheQue.length + 1) s

/-- A call of one of the three public operations, with the frame number it
reads where it reads one. -/
inductive Call where
  | addPath (frameNum : Int) (path : IPath.Path) (result : IPath.SearchResult) (k : CacheKey)
  | getCachedPath (k : CacheKey)
  | update (frameNum : Int)
deriving DecidableEq, Repr

/-- The state after one call. -/
def Call.apply (env : Env) (c : Call) (s : CPathCache) : Except Fault CPathCache :=
  match c with
  | .addPath frameNum path result k =>
    match AddPath env frameNum path result k s with
    | .error e => .error e
    | .ok r => .ok r.2
  | .getCachedPath k => .ok (GetCachedPath env k s).2
  | .update frameNum => Update frameNum s

/-- The state after a sequence of calls, first call first. -/
def runCalls (env : Env) : List Call → CPathCache → Except Fault CPathCache
  | [], s => .ok s
  | c :: cs, s =>
    match c.apply env s with
    | .error e => .error e
    | .ok s' => runCalls env cs s'

/-- The frame numbers read by a sequence of calls, in order. -/
def ticksOf : List Call → List Int
  | [] => []
  | .addPath frameNum _ _ _ :: cs => frameNum :: ticksOf cs
  | .getCachedPath _ :: cs => ticksOf cs
  | .update frameNum :: cs => frameNum :: ticksOf cs

/-- The frame number never decreases along the calls. -/
def MonotoneTicks (cs : List Call) : Prop :=
  (ticksOf cs).Pairwise (fun a b => a ≤ b)

instance (cs : List Call) : Decidable (MonotoneTicks cs) := by
  unfold MonotoneTicks; infer_instance

/-- Every record of the expiry queue has an entry in the store. -/
def QueueInStore (s : CPathCache) : Prop :=
  ∀ cq ∈ s.cacheQue, (mapFind s.cachedPaths cq.hash).isSome = true

instance (s : CPathCache) : Decidable (QueueInStore s) := by
  unfold QueueInStore; infer_instance

/-- No hash occurs in two records of the expiry queue. -/
def QueueNodup (s : CPathCache) : Prop :=
  (s.cacheQue.map CacheQue.hash).Nodup

instance (s : CPathCache) : Decidable (QueueNodup s) := by
  unfold QueueNodup; infer_instance

/-- The records at the front of the queue whose timeout lies before frame `t`. -/
def expiredPrefix (t : Int) (q : List CacheQue) : List CacheQue :=
  q.takeWhile (fun c => decide (c.timeout < t))

/-- The records that stay when the expired front records are dropped. -/
def livePart (t : Int) (q : List CacheQue) : List CacheQue :=
  q.dropWhile (fun c => decide (c.timeout < t))

/-- The store after erasing the entries of the records `l`, first record first. -/
def eraseAll (m : CachedPathMap) (l : List CacheQue) : CachedPathMap :=
  l.foldl (fun acc c => mapErase acc c.hash) m

/-- The timeouts never decrease from the front of the queue to its back. -/
def QueueSorted (s : CPathCache) : Prop :=
  (s.cacheQue.map CacheQue.timeout).Pairwise (fun a b => a ≤ b)

instance (s : CPathCache) : Decidable (QueueSorted s) := by
  unfold QueueSorted; infer_instance

/-- Every entry of the store has a record in the expiry queue. -/
def StoreInQueue (s : CPathCache) : Prop :=
  ∀ e ∈ s.cachedPaths, e.1 ∈ s.cacheQue.map CacheQue.hash

instance (s : CPathCache) : Decidable (StoreInQueue s) := by
  unfold StoreInQueue; infer_instance

/-- Modelled from the spec: `GetCacheHitPercentage` is defined in
`PathCache.h`, outside the sources at hand; the destructor (line 25) logs its
value.  The specification gives it as `hits / (hits + misses) × 100`, or 0 if
no lookups have been made yet.  The `float` result is modelled by the exact
rational value. -/
def GetCacheHitPercentage (s : CPathCache) : ℚ :=
  if s.numCacheHits + s.numCacheMisses = 0 then 0
  else (s.numCacheHits : ℚ) / ((s.numCacheHits : ℚ) + (s.numCacheMisses : ℚ)) * 100

/-- No hash is bound twice in the entry store. -/
def StoreNodup (s : CPathCache) : Prop :=
  (s.cachedPaths.map Prod.fst).Nodup

instance (s : CPathCache) : Decidable (StoreNodup s) := by
  unfold StoreNodup; infer_instance

/-- The four key fields recorded in a stored item. -/
def CacheItem.key (ci : CacheItem) : CacheKey :=
  { startBlock := ci.startBlock, goalBlock := ci.goalBlock,
    goalRadius := ci.goalRadius, pathType := ci.pathType }

/-- Every stored item sits under the hash of its own key fields. -/
def EntriesHashed (env : Env) (s : CPathCache) : Prop :=
  ∀ h ci, mapFind s.cachedPaths h = some ci → env.GetHash ci.key = h

/-- The number of `GetCachedPath` calls in a sequence of calls. -/
def lookupCount : List Call → Nat
  | [] => 0
  | .getCachedPath _ :: cs => lookupCount cs + 1
  | .addPath _ _ _ _ :: cs => lookupCount cs
  | .update _ :: cs => lookupCount cs

/-- The loop of `Update` (lines 97-98) as in `UpdateLoop`, which also counts
its calls of `RemoveFrontQueItem`. -/
def UpdateLoopSteps (frameNum : Int) : Nat → CPathCache → Except Fault (CPathCache × Nat)
  | 0, _ => .error .outOfFuel
  | fuel + 1, s =>
    match s.cacheQue with
    | [] => .ok (s, 0)
    | cq :: _ =>
      if cq.timeout < frameNum then
        match RemoveFrontQueItem s with
        | .error e => .error e
        | .ok s' =>
          match UpdateLoopSteps frameNum fuel s' with
          | .error e => .error e
          | .ok res => .ok (res.1, res.2 + 1)
      else .ok (s, 0)

/-- The arguments of one `AddPath` call and the frame at which it is made. -/
structure Insertion where
  frameNum : Int
  path : IPath.Path
  result : IPath.SearchResult
  key : CacheKey
deriving DecidableEq, Repr

/-- The call that performs an insertion. -/
def Insertion.call (i : Insertion) : Call :=
  .addPath i.frameNum i.path i.result i.key

/-- The queue record that `AddPath` pushes for an insertion (lines 61-65). -/
def Insertion.record (env : Env) (i : Insertion) : CacheQue :=
  { hash := env.GetHash i.key, timeout := i.frameNum + env.GAME_SPEED * 7 }

/-- The item that `AddPath` stores for an insertion (lines 51-57). -/
def Insertion.item (i : Insertion) : CacheItem :=
  CacheItem.make i.path i.result i.key

/-! ### Concrete inputs for the examples -/

/-- A hash for the examples: the x coordinate of the start block. -/
def sampleHash (k : CacheKey) : Nat := k.startBlock.x.toNat

/-- The program as compiled (`MAX_CACHE_QUEUE_SIZE = 100`), with `sampleHash` and
`GAME_SPEED = 30`. -/
def sampleEnv : Env :=
  { GetHash := sampleHash, GAME_SPEED := 30, maxQueueSize := MAX_CACHE_QUEUE_SIZE }

/-- The capacity scenario of the specification: capacity 2. -/
def scenarioEnv : Env :=
  { GetHash := sampleHash, GAME_SPEED := 30, maxQueueSize := 2 }

/-- A stub hasher that sends every key to the same slot. -/
def stubEnv : Env :=
  { GetHash := fun _ => 7, GAME_SPEED := 30, maxQueueSize := MAX_CACHE_QUEUE_SIZE }

/-- The example key whose start block is `(n, 0)`. -/
def keyN (n : Nat) : CacheKey :=
  { startBlock := ⟨n, 0⟩, goalBlock := ⟨3, 4⟩, goalRadius := 8, pathType := 1 }

/-- The example path with the single waypoint `(n, n)`. -/
def pathN (n : Nat) : IPath.Path := { waypoints := [⟨n, n⟩] }

/-- The calls `AddPath(pathN i, Ok, keyN i)` for `i = 0, ..., n - 1`, the i-th at frame `i`. -/
def addCalls (n : Nat) : List Call :=
  (List.range n).map (fun i => Call.addPath (Int.ofNat i) (pathN i) .Ok (keyN i))

/-- The insertion of `keyN n` with `pathN n` and result `Ok` at frame `n`. -/
def insN (n : Nat) : Insertion :=
  { frameNum := Int.ofNat n, path := pathN n, result := .Ok, key := keyN n }

/-- Four insertions, a lookup, a prune and a fifth insertion. -/
def scenarioCalls : List Call :=
  addCalls 4 ++ [Call.getCachedPath (keyN 2), Call.update 212, (insN 9).call]

/-- The state that `scenarioCalls` reaches from the empty cache with capacity 2. -/
def scenarioState : CPathCache :=
  { blocksX := 8, blocksZ := 8, numCacheHits := 1, numCacheMisses := 0,
    numHashCollisions := 0,
    cachedPaths := [(2, (insN 2).item), (3, (insN 3).item), (9, (insN 9).item)],
    cacheQue := [⟨2, 212⟩, ⟨3, 213⟩, ⟨9, 219⟩] }

/-- The state that `addCalls 2` reaches from the empty cache. -/
def twoAdded : CPathCache :=
  { blocksX := 8, blocksZ := 8, numCacheHits := 0, numCacheMisses := 0,
    numHashCollisions := 0,
    cachedPaths := [(0, (insN 0).item), (1, (insN 1).item)],
    cacheQue := [⟨0, 210⟩, ⟨1, 211⟩] }

/-- The key `keyN n` asked with goal radius 9 instead of 8. -/
def keyWide (n : Nat) : CacheKey :=
  { keyN n with goalRadius := 9 }

/-- The empty cache after `AddPath(pathN 1, Ok, keyN 1)` at frame 0 under the stub hasher. -/
def stubStored : CPathCache :=
  { blocksX := 8, blocksZ := 8, numCacheHits := 0, numCacheMisses := 0,
    numHashCollisions := 0,
    cachedPaths := [(7, CacheItem.make (pathN 1) .Ok (keyN 1))],
    cacheQue := [⟨7, 210⟩] }

/-- The state `stubStored` after one registered collision. -/
def stubCollided : CPathCache :=
  { stubStored with numHashCollisions := 1 }

/-- The state that `addCalls 4` reaches from the empty cache (capacity 100). -/
def fourAdded : CPathCache :=
  { blocksX := 8, blocksZ := 8, numCacheHits := 0, numCacheMisses := 0,
    numHashCollisions := 0,
    cachedPaths := [(0, (insN 0).item), (1, (insN 1).item), (2, (insN 2).item),
                    (3, (insN 3).item)],
    cacheQue := [⟨0, 210⟩, ⟨1, 211⟩, ⟨2, 212⟩, ⟨3, 213⟩] }

/-- Three insertions, a lookup, a prune and a later insertion, with frame
numbers 0, 1, 2, 211, 300. -/
def steadyCalls : List Call :=
  addCalls 3 ++ [Call.getCachedPath (keyN 1), Call.update 211, (insN 300).call]

/-- The state that `steadyCalls` reaches from the empty cache (capacity 100). -/
def steadyState : CPathCache :=
  { blocksX := 8, blocksZ := 8, numCacheHits := 1, numCacheMisses := 0,
    numHashCollisions := 0,
    cachedPaths := [(1, (insN 1).item), (2, (insN 2).item), (300, (insN 300).item)],
    cacheQue := [⟨1, 211⟩, ⟨2, 212⟩, ⟨300, 510⟩] }

/-- The state that `addCalls 3` reaches from the empty cache. -/
def threeAdded : CPathCache :=
  { blocksX := 8, blocksZ := 8, numCacheHits := 0, numCacheMisses := 0,
    numHashCollisions := 0,
    cachedPaths := [(0, (insN 0).item), (1, (insN 1).item), (2, (insN 2).item)],
    cacheQue := [⟨0, 210⟩, ⟨1, 211⟩, ⟨2, 212⟩] }

/-- One insertion of `keyN 1`, three lookups of it and one lookup of `keyN 5`. -/
def lookupCalls : List Call :=
  [(insN 1).call, Call.getCachedPath (keyN 1), Call.getCachedPath (keyN 1),
    Call.getCachedPath (keyN 5), Call.getCachedPath (keyN 1)]

/-- The state that `lookupCalls` reaches from the empty cache. -/
def lookupState : CPathCache :=
  { blocksX := 8, blocksZ := 8, numCacheHits := 3, numCacheMisses := 1,
    numHashCollisions := 0,
    cachedPaths := [(1, (insN 1).item)],
    cacheQue := [⟨1, 211⟩] }

/-- A cache holding the entries of `keyN 1` and `keyN 2`. -/
def sampleState : CPathCache :=
  { blocksX := 8, blocksZ := 8, numCacheHits := 2, numCacheMisses := 1, numHashCollisions := 0,
    cachedPaths := [(1, CacheItem.make (pathN 1) .Ok (keyN 1)),
                    (2, CacheItem.make (pathN 2) .PartialOk (keyN 2))],
    cacheQue := [⟨1, 215⟩, ⟨2, 217⟩] }

/-! ## The association list -/

theorem mapFind_mapErase (m : CachedPathMap) (h h' : Nat) :
    mapFind (mapErase m h) h' = if h' = h then none else mapFind m h' := by
  induction m with
  | nil => simp [mapErase, mapFind]
  | cons e rest ih =>
    obtain ⟨k, v⟩ := e
    unfold mapErase at ih ⊢
    by_cases hk : k = h
    · subst hk
      simp only [List.filter, ne_eq, not_true_eq_false, decide_False]
      rw [ih]
      by_cases hh : h' = k
      · simp [hh]
      · have : ¬ k = h' := fun e => hh e.symm
        simp [hh, mapFind, this]
    · simp only [List.filter, ne_eq, hk, not_false_eq_true, decide_True, mapFind]
      rw [ih]
      by_cases hh : h' = h
      · subst hh
        simp [hk]
      · simp [hh]

theorem mapFind_mapInsert (m : CachedPathMap) (h h' : Nat) (ci : CacheItem) :
    mapFind (mapInsert m h ci) h' = if h' = h then some ci else mapFind m h' := by
  induction m with
  | nil =>
    by_cases hh : h' = h
    · simp [mapInsert, mapFind, hh]
    · have : ¬ h = h' := fun e => hh e.symm
      simp [mapInsert, mapFind, hh, this]
  | cons e rest ih =>
    obtain ⟨k, v⟩ := e
    unfold mapInsert
    by_cases h1 : h < k
    · by_cases hh : h' = h
      · simp [h1, mapFind, hh]
      · have : ¬ h = h' := fun e => hh e.symm
        simp [h1, mapFind, hh, this]
    · by_cases h2 : h = k
      · subst h2
        by_cases hh : h' = h
        · simp [mapFind, hh]
        · have : ¬ h = h' := fun e => hh e.symm
          simp [mapFind, hh, this]
      · simp only [h1, h2, if_false, mapFind]
        by_cases h3 : k = h'
        · have : ¬ h' = h := fun e => h2 (e.symm.trans h3.symm)
          simp [h3, this]
        · simp [h3, ih]

theorem mapFind_mapErase_self (m : CachedPathMap) (h : Nat) :
    mapFind (mapErase m h) h = none := by
  rw [mapFind_mapErase]; simp

theorem mapFind_mapErase_ne (m : CachedPathMap) {h h' : Nat} (hne : h' ≠ h) :
    mapFind (mapErase m h) h' = mapFind m h' := by
  rw [mapFind_mapErase]; simp [hne]

theorem mapFind_mapInsert_self (m : CachedPathMap) (h : Nat) (ci : CacheItem) :
    mapFind (mapInsert m h ci) h = some ci := by
  rw [mapFind_mapInsert]; simp

theorem mapFind_mapInsert_ne (m : CachedPathMap) {h h' : Nat} (ci : CacheItem) (hne : h' ≠ h) :
    mapFind (mapInsert m h ci) h' = mapFind m h' := by
  rw [mapFind_mapInsert]; simp [hne]

/-! ## Single operations -/

theorem RemoveFrontQueItem_cons {s : CPathCache} {cq : CacheQue} {rest : List CacheQue}
    {ci : CacheItem} (hq : s.cacheQue = cq :: rest)
    (hf : mapFind s.cachedPaths cq.hash = some ci) :
    RemoveFrontQueItem s
      = .ok { s with cachedPaths := mapErase s.cachedPaths cq.hash, cacheQue := rest } := by
  unfold RemoveFrontQueItem
  rw [hq]
  simp only [hf]

theorem capacityCheck_le {env : Env} {s : CPathCache}
    (h : s.cacheQue.length ≤ env.maxQueueSize) : capacityCheck env s = .ok s := by
  unfold capacityCheck
  simp [Nat.not_lt.mpr h]

theorem capacityCheck_gt {env : Env} {s : CPathCache}
    (h : env.maxQueueSize < s.cacheQue.length) :
    capacityCheck env s = RemoveFrontQueItem s := by
  unfold capacityCheck
  simp [h]

theorem AddPath_of_none {env : Env} {s s0 : CPathCache} (t : Int) (p : IPath.Path)
    (r : IPath.SearchResult) (k : CacheKey) (hc : capacityCheck env s = .ok s0)
    (hk : mapFind s0.cachedPaths (env.GetHash k) = none) :
    AddPath env t p r k s
      = .ok (false, { s0 with
          cachedPaths := mapInsert s0.cachedPaths (env.GetHash k) (CacheItem.make p r k),
          cacheQue := s0.cacheQue ++
            [{ hash := env.GetHash k, timeout := t + env.GAME_SPEED * 7 }] }) := by
  unfold AddPath
  simp only [hc, hk]

theorem AddPath_fresh {env : Env} {s s0 : CPathCache} (t : Int) (p : IPath.Path)
    (r : IPath.SearchResult) (k : CacheKey) (hc : capacityCheck env s = .ok s0)
    (hk : mapFind s0.cachedPaths (env.GetHash k) = none) :
    ∃ s1, AddPath env t p r k s = .ok (false, s1)
      ∧ s1.cachedPaths = mapInsert s0.cachedPaths (env.GetHash k) (CacheItem.make p r k)
      ∧ s1.cacheQue = s0.cacheQue ++
          [{ hash := env.GetHash k, timeout := t + env.GAME_SPEED * 7 }]
      ∧ s1.numCacheHits = s0.numCacheHits ∧ s1.numCacheMisses = s0.numCacheMisses
      ∧ s1.numHashCollisions = s0.numHashCollisions
      ∧ s1.blocksX = s0.blocksX ∧ s1.blocksZ = s0.blocksZ :=
  ⟨_, AddPath_of_none t p r k hc hk, rfl, rfl, rfl, rfl, rfl, rfl, rfl⟩

theorem AddPath_of_some {env : Env} {s s0 : CPathCache} (t : Int) (p : IPath.Path)
    (r : IPath.SearchResult) (k : CacheKey) {ci : CacheItem}
    (hc : capacityCheck env s = .ok s0)
    (hk : mapFind s0.cachedPaths (env.GetHash k) = some ci) :
    AddPath env t p r k s
      = .ok (HashCollision ci k, { s0 with
          numHashCollisions :=
            s0.numHashCollisions + (if HashCollision ci k then 1 else 0) }) := by
  unfold AddPath
  simp only [hc, hk]
  cases HashCollision ci k <;> simp

theorem HashCollision_make (p : IPath.Path) (r : IPath.SearchResult) (k k' : CacheKey) :
    HashCollision (CacheItem.make p r k) k' = decide (k ≠ k') := by
  obtain ⟨a, b, c, d⟩ := k
  obtain ⟨a', b', c', d'⟩ := k'
  simp only [HashCollision, CacheItem.make, ne_eq, CacheKey.mk.injEq]
  by_cases h1 : a = a' <;> by_cases h2 : b = b' <;> by_cases h3 : c = c' <;>
    by_cases h4 : d = d' <;> simp [h1, h2, h3, h4]

theorem GetCachedPath_make {env : Env} {s : CPathCache} {p : IPath.Path}
    {r : IPath.SearchResult} {k : CacheKey}
    (h : mapFind s.cachedPaths (env.GetHash k) = some (CacheItem.make p r k)) :
    GetCachedPath env k s
      = (some (CacheItem.make p r k), { s with numCacheHits := s.numCacheHits + 1 }) := by
  unfold GetCachedPath
  simp [h, CacheItem.make]

theorem GetCachedPath_none {env : Env} {s : CPathCache} {k : CacheKey}
    (h : mapFind s.cachedPaths (env.GetHash k) = none) :
    GetCachedPath env k s = (none, { s with numCacheMisses := s.numCacheMisses + 1 }) := by
  unfold GetCachedPath
  simp [h]

/-! ## Queue/store invariants -/

theorem RemoveFrontQueItem_inv {s : CPathCache} {cq : CacheQue} {rest : List CacheQue}
    (hq : s.cacheQue = cq :: rest) (hi : QueueInStore s) (hn : QueueNodup s) :
    ∃ s', RemoveFrontQueItem s = .ok s'
      ∧ s' = { s with cachedPaths := mapErase s.cachedPaths cq.hash, cacheQue := rest }
      ∧ QueueInStore s' ∧ QueueNodup s' := by
  have hfront : (mapFind s.cachedPaths cq.hash).isSome = true :=
    hi cq (by rw [hq]; exact List.mem_cons_self _ _)
  obtain ⟨ci, hci⟩ := Option.isSome_iff_exists.mp hfront
  refine ⟨_, RemoveFrontQueItem_cons hq hci, rfl, ?_, ?_⟩
  · intro c hc
    have hc' : c ∈ rest := hc
    have hne : c.hash ≠ cq.hash := by
      intro e
      have hnd : (cq.hash :: rest.map CacheQue.hash).Nodup := by
        have := hn
        unfold QueueNodup at this
        rwa [hq, List.map_cons] at this
      have hnot := (List.nodup_cons.mp hnd).1
      exact hnot (e ▸ List.mem_map_of_mem CacheQue.hash hc')
    show (mapFind (mapErase s.cachedPaths cq.hash) c.hash).isSome = true
    rw [mapFind_mapErase_ne _ hne]
    exact hi c (by rw [hq]; exact List.mem_cons_of_mem _ hc')
  · have hnd : (cq.hash :: rest.map CacheQue.hash).Nodup := by
      have := hn
      unfold QueueNodup at this
      rwa [hq, List.map_cons] at this
    exact (List.nodup_cons.mp hnd).2

theorem capacityCheck_inv (env : Env) {s : CPathCache} (hi : QueueInStore s)
    (hn : QueueNodup s) :
    ∃ s0, capacityCheck env s = .ok s0 ∧ QueueInStore s0 ∧ QueueNodup s0
      ∧ s0.cacheQue.length ≤ env.maxQueueSize ⊔ (s.cacheQue.length - 1)
      ∧ s0.numCacheHits = s.numCacheHits ∧ s0.numCacheMisses = s.numCacheMisses
      ∧ s0.numHashCollisions = s.numHashCollisions
      ∧ (∀ h, mapFind s.cachedPaths h = none → mapFind s0.cachedPaths h = none)
      ∧ (∀ c ∈ s0.cacheQue, c ∈ s.cacheQue) := by
  by_cases hlen : env.maxQueueSize < s.cacheQue.length
  · rw [capacityCheck_gt hlen]
    cases hq : s.cacheQue with
    | nil => rw [hq] at hlen; simp at hlen
    | cons cq rest =>
      obtain ⟨s', hs', heq, hi', hn'⟩ := RemoveFrontQueItem_inv hq hi hn
      refine ⟨s', hs', hi', hn', ?_, ?_, ?_, ?_, ?_, ?_⟩
      · subst heq; simp
      · subst heq; rfl
      · subst heq; rfl
      · subst heq; rfl
      · intro h hh
        subst heq
        show mapFind (mapErase s.cachedPaths cq.hash) h = none
        rw [mapFind_mapErase]
        split <;> simp [hh]
      · intro c hc
        subst heq
        exact List.mem_cons_of_mem _ hc
  · have hle : s.cacheQue.length ≤ env.maxQueueSize := Nat.le_of_not_lt hlen
    exact ⟨s, capacityCheck_le hle, hi, hn, le_sup_of_le_left hle, rfl, rfl, rfl,
      fun _ h => h, fun _ h => h⟩

theorem insert_inv {s0 : CPathCache} (h : Nat) (ci : CacheItem) (t : Int)
    (hi : QueueInStore s0) (hn : QueueNodup s0) (hk : mapFind s0.cachedPaths h = none) :
    QueueInStore { s0 with cachedPaths := mapInsert s0.cachedPaths h ci,
                           cacheQue := s0.cacheQue ++ [{ hash := h, timeout := t }] }
    ∧ QueueNodup { s0 with cachedPaths := mapInsert s0.cachedPaths h ci,
                           cacheQue := s0.cacheQue ++ [{ hash := h, timeout := t }] } := by
  have hnotin : h ∉ s0.cacheQue.map CacheQue.hash := by
    intro hmem
    obtain ⟨c, hc, hch⟩ := List.mem_map.mp hmem
    have := hi c hc
    rw [hch, hk] at this
    simp at this
  constructor
  · intro c hc
    show (mapFind (mapInsert s0.cachedPaths h ci) c.hash).isSome = true
    rw [mapFind_mapInsert]
    split
    · rfl
    · have hc' : c ∈ s0.cacheQue ++ [(⟨h, t⟩ : CacheQue)] := hc
      rcases List.mem_append.mp hc' with h1 | h1
      · exact hi c h1
      · simp only [List.mem_singleton] at h1
        subst h1
        simp_all
  · show ((s0.cacheQue ++ [(⟨h, t⟩ : CacheQue)]).map CacheQue.hash).Nodup
    rw [List.map_append, List.map_singleton]
    refine List.Nodup.append hn (List.nodup_singleton _) ?_
    intro x hx hx'
    simp only [List.mem_singleton] at hx'
    subst hx'
    exact hnotin hx

theorem AddPath_inv (env : Env) (t : Int) (p : IPath.Path) (r : IPath.SearchResult)
    (k : CacheKey) {s : CPathCache} (hi : QueueInStore s) (hn : QueueNodup s) :
    ∃ b s', AddPath env t p r k s = .ok (b, s') ∧ QueueInStore s' ∧ QueueNodup s'
      ∧ s'.cacheQue.length ≤ (env.maxQueueSize ⊔ (s.cacheQue.length - 1)) + 1 := by
  obtain ⟨s0, hc, hi0, hn0, hlen, -, -, -, -, -⟩ := capacityCheck_inv env hi hn
  cases hk : mapFind s0.cachedPaths (env.GetHash k) with
  | none =>
    rw [AddPath_of_none t p r k hc hk]
    obtain ⟨h1, h2⟩ := insert_inv (env.GetHash k) (CacheItem.make p r k)
      (t + env.GAME_SPEED * 7) hi0 hn0 hk
    refine ⟨_, _, rfl, h1, h2, ?_⟩
    simp only [List.length_append, List.length_singleton]
    omega
  | some ci =>
    rw [AddPath_of_some t p r k hc hk]
    refine ⟨_, _, rfl, hi0, hn0, ?_⟩
    show s0.cacheQue.length ≤ _
    omega

theorem mapFind_eraseAll (l : List CacheQue) (m : CachedPathMap) (h : Nat) :
    mapFind (eraseAll m l) h
      = if h ∈ l.map CacheQue.hash then none else mapFind m h := by
  induction l generalizing m with
  | nil => simp [eraseAll]
  | cons c rest ih =>
    have hstep : eraseAll m (c :: rest) = eraseAll (mapErase m c.hash) rest := rfl
    rw [hstep, ih, mapFind_mapErase]
    by_cases h1 : h ∈ rest.map CacheQue.hash
    · simp [h1]
    · by_cases h2 : h = c.hash
      · simp [h2]
      · simp [h1, h2]

theorem UpdateLoop_inv (t : Int) (fuel : Nat) {s : CPathCache} (hi : QueueInStore s)
    (hn : QueueNodup s) (hf : s.cacheQue.length < fuel) :
    ∃ s', UpdateLoop t fuel s = .ok s'
      ∧ s' = { s with cachedPaths := eraseAll s.cachedPaths (expiredPrefix t s.cacheQue),
                      cacheQue := livePart t s.cacheQue }
      ∧ QueueInStore s' ∧ QueueNodup s' := by
  induction fuel generalizing s with
  | zero => exact absurd hf (Nat.not_lt_zero _)
  | succ n ih =>
    unfold UpdateLoop
    cases hq : s.cacheQue with
    | nil =>
      refine ⟨s, rfl, ?_, hi, hn⟩
      cases s
      simp_all [expiredPrefix, livePart, eraseAll]
    | cons cq rest =>
      by_cases hlt : cq.timeout < t
      · obtain ⟨s1, hs1, heq, hi1, hn1⟩ := RemoveFrontQueItem_inv hq hi hn
        have hlen : s1.cacheQue.length < n := by
          subst heq
          rw [hq] at hf
          simp only [List.length_cons] at hf
          show rest.length < n
          omega
        obtain ⟨s2, hs2, heq2, hi2, hn2⟩ := ih hi1 hn1 hlen
        refine ⟨s2, ?_, ?_, hi2, hn2⟩
        · simp only [hlt, if_true, hs1]
          exact hs2
        · rw [heq2, heq]
          simp [expiredPrefix, livePart, eraseAll, hlt]
      · refine ⟨s, ?_, ?_, hi, hn⟩
        · simp [hlt]
        · cases s
          simp_all [expiredPrefix, livePart, eraseAll]

theorem Update_inv (t : Int) {s : CPathCache} (hi : QueueInStore s) (hn : QueueNodup s) :
    ∃ s', Update t s = .ok s'
      ∧ s' = { s with cachedPaths := eraseAll s.cachedPaths (expiredPrefix t s.cacheQue),
                      cacheQue := livePart t s.cacheQue }
      ∧ QueueInStore s' ∧ QueueNodup s' :=
  UpdateLoop_inv t (s.cacheQue.length + 1) hi hn (Nat.lt_succ_self _)

theorem GetCachedPath_frame (env : Env) (k : CacheKey) (s : CPathCache) :
    (GetCachedPath env k s).2.cachedPaths = s.cachedPaths
      ∧ (GetCachedPath env k s).2.cacheQue = s.cacheQue := by
  unfold GetCachedPath
  split
  · exact ⟨rfl, rfl⟩
  · split_ifs <;> exact ⟨rfl, rfl⟩

theorem livePart_length_le (t : Int) (q : List CacheQue) :
    (livePart t q).length ≤ q.length := by
  unfold livePart
  exact (List.dropWhile_sublist _).length_le

theorem Call_apply_inv (env : Env) (c : Call) {s : CPathCache} (hi : QueueInStore s)
    (hn : QueueNodup s) :
    ∃ s', c.apply env s = .ok s' ∧ QueueInStore s' ∧ QueueNodup s'
      ∧ (s.cacheQue.length ≤ env.maxQueueSize + 1 →
          s'.cacheQue.length ≤ env.maxQueueSize + 1) := by
  cases c with
  | addPath t p r k =>
    obtain ⟨b, s', h, hi', hn', hlen⟩ := AddPath_inv env t p r k hi hn
    refine ⟨s', ?_, hi', hn', ?_⟩
    · simp [Call.apply, h]
    · intro hle
      have : env.maxQueueSize ⊔ (s.cacheQue.length - 1) = env.maxQueueSize :=
        sup_eq_left.mpr (by omega)
      omega
  | getCachedPath k =>
    obtain ⟨h1, h2⟩ := GetCachedPath_frame env k s
    refine ⟨_, rfl, ?_, ?_, ?_⟩
    · intro c hc
      rw [h1]
      rw [h2] at hc
      exact hi c hc
    · unfold QueueNodup
      rw [h2]
      exact hn
    · rw [h2]
      exact id
  | update t =>
    obtain ⟨s', h, heq, hi', hn'⟩ := Update_inv t hi hn
    refine ⟨s', h, hi', hn', ?_⟩
    intro hle
    subst heq
    exact le_trans (livePart_length_le t s.cacheQue) hle

theorem runCalls_inv (env : Env) (cs : List Call) {s : CPathCache} (hi : QueueInStore s)
    (hn : QueueNodup s) :
    ∃ s', runCalls env cs s = .ok s' ∧ QueueInStore s' ∧ QueueNodup s'
      ∧ (s.cacheQue.length ≤ env.maxQueueSize + 1 →
          s'.cacheQue.length ≤ env.maxQueueSize + 1) := by
  induction cs generalizing s with
  | nil => exact ⟨s, rfl, hi, hn, id⟩
  | cons c cs ih =>
    obtain ⟨s1, h1, hi1, hn1, hl1⟩ := Call_apply_inv env c hi hn
    obtain ⟨s2, h2, hi2, hn2, hl2⟩ := ih hi1 hn1
    refine ⟨s2, ?_, hi2, hn2, fun h => hl2 (hl1 h)⟩
    simp [runCalls, h1, h2]

theorem new_inv (bx bz : Int) :
    QueueInStore (CPathCache.new bx bz) ∧ QueueNodup (CPathCache.new bx bz) := by
  constructor
  · intro c hc
    simp [CPathCache.new] at hc
  · simp [QueueNodup, CPathCache.new]

theorem reachable_inv {env : Env} {cs : List Call} {bx bz : Int} {s : CPathCache}
    (h : runCalls env cs (CPathCache.new bx bz) = .ok s) :
    QueueInStore s ∧ QueueNodup s ∧ s.cacheQue.length ≤ env.maxQueueSize + 1 := by
  obtain ⟨s', h', hi, hn, hl⟩ := runCalls_inv env cs (new_inv bx bz).1 (new_inv bx bz).2
  rw [h] at h'
  cases h'
  exact ⟨hi, hn, hl (by simp [CPathCache.new])⟩

theorem RemoveFrontQueItem_ok {s s' : CPathCache} (h : RemoveFrontQueItem s = .ok s') :
    ∃ cq rest ci, s.cacheQue = cq :: rest ∧ mapFind s.cachedPaths cq.hash = some ci
      ∧ s' = { s with cachedPaths := mapErase s.cachedPaths cq.hash, cacheQue := rest } := by
  unfold RemoveFrontQueItem at h
  cases hq : s.cacheQue with
  | nil => rw [hq] at h; simp at h
  | cons cq rest =>
    rw [hq] at h
    cases hf : mapFind s.cachedPaths cq.hash with
    | none => simp [hf] at h
    | some ci =>
      simp only [hf, Except.ok.injEq] at h
      exact ⟨cq, rest, ci, rfl, hf, h.symm⟩

theorem capacityCheck_counters {env : Env} {s s0 : CPathCache}
    (h : capacityCheck env s = .ok s0) :
    s0.numCacheHits = s.numCacheHits ∧ s0.numCacheMisses = s.numCacheMisses
      ∧ s0.numHashCollisions = s.numHashCollisions
      ∧ s0.blocksX = s.blocksX ∧ s0.blocksZ = s.blocksZ := by
  unfold capacityCheck at h
  split at h
  · obtain ⟨cq, rest, ci, -, -, heq⟩ := RemoveFrontQueItem_ok h
    subst heq
    exact ⟨rfl, rfl, rfl, rfl, rfl⟩
  · cases h
    exact ⟨rfl, rfl, rfl, rfl, rfl⟩

theorem capacityCheck_total (env : Env) {s : CPathCache} (hi : QueueInStore s) :
    ∃ s0, capacityCheck env s = .ok s0
      ∧ (∀ h, mapFind s.cachedPaths h = none → mapFind s0.cachedPaths h = none) := by
  by_cases hlen : env.maxQueueSize < s.cacheQue.length
  · rw [capacityCheck_gt hlen]
    cases hq : s.cacheQue with
    | nil => rw [hq] at hlen; simp at hlen
    | cons cq rest =>
      have hfront : (mapFind s.cachedPaths cq.hash).isSome = true :=
        hi cq (by rw [hq]; exact List.mem_cons_self _ _)
      obtain ⟨ci, hci⟩ := Option.isSome_iff_exists.mp hfront
      refine ⟨_, RemoveFrontQueItem_cons hq hci, ?_⟩
      intro h hh
      show mapFind (mapErase s.cachedPaths cq.hash) h = none
      rw [mapFind_mapErase]
      split <;> simp [hh]
  · exact ⟨s, capacityCheck_le (Nat.le_of_not_lt hlen), fun _ h => h⟩

theorem mapInsert_length (m : CachedPathMap) (h : Nat) (ci : CacheItem)
    (hk : mapFind m h = none) : (mapInsert m h ci).length = m.length + 1 := by
  induction m with
  | nil => simp [mapInsert]
  | cons e rest ih =>
    obtain ⟨k, v⟩ := e
    unfold mapInsert
    by_cases h1 : h < k
    · simp [h1]
    · by_cases h2 : h = k
      · subst h2
        simp [mapFind] at hk
      · have h3 : ¬ k = h := fun e => h2 e.symm
        simp only [mapFind, h3, if_false] at hk
        simp [h1, h2, ih hk]

theorem runCalls_append (env : Env) (a b : List Call) (s : CPathCache) :
    runCalls env (a ++ b) s
      = match runCalls env a s with
        | .error e => .error e
        | .ok s' => runCalls env b s' := by
  induction a generalizing s with
  | nil => rfl
  | cons c cs ih =>
    simp only [List.cons_append, runCalls]
    cases c.apply env s with
    | error e => rfl
    | ok s1 => exact ih s1

/-- Insertions with pairwise distinct fresh hashes that fit under the capacity
check are all stored, in order, and nothing is evicted. -/
theorem runCalls_insertions (env : Env) (ins : List Insertion) (s : CPathCache)
    (hnd : (ins.map (fun i => env.GetHash i.key)).Nodup)
    (hfresh : ∀ i ∈ ins, mapFind s.cachedPaths (env.GetHash i.key) = none)
    (hlen : s.cacheQue.length + ins.length ≤ env.maxQueueSize + 1) :
    ∃ s', runCalls env (ins.map Insertion.call) s = .ok s'
      ∧ s'.cacheQue = s.cacheQue ++ ins.map (Insertion.record env)
      ∧ (∀ i ∈ ins, mapFind s'.cachedPaths (env.GetHash i.key) = some i.item)
      ∧ (∀ h, h ∉ ins.map (fun i => env.GetHash i.key) →
          mapFind s'.cachedPaths h = mapFind s.cachedPaths h)
      ∧ s'.numCacheHits = s.numCacheHits ∧ s'.numCacheMisses = s.numCacheMisses
      ∧ s'.numHashCollisions = s.numHashCollisions := by
  induction ins generalizing s with
  | nil => exact ⟨s, rfl, by simp, by simp, by simp, rfl, rfl, rfl⟩
  | cons i rest ih =>
    simp only [List.map_cons, List.nodup_cons, List.length_cons] at hnd hlen
    have hcap : capacityCheck env s = .ok s := capacityCheck_le (by omega)
    have hk : mapFind s.cachedPaths (env.GetHash i.key) = none :=
      hfresh i (List.mem_cons_self _ _)
    have hadd := AddPath_of_none i.frameNum i.path i.result i.key hcap hk
    obtain ⟨s', hrun, hq, hin, hout, hh, hm, hcl⟩ := ih
      { s with
        cachedPaths := mapInsert s.cachedPaths (env.GetHash i.key)
          (CacheItem.make i.path i.result i.key),
        cacheQue := s.cacheQue ++
          [{ hash := env.GetHash i.key, timeout := i.frameNum + env.GAME_SPEED * 7 }] }
      hnd.2
      (by
        intro j hj
        have hne : env.GetHash j.key ≠ env.GetHash i.key := by
          intro e
          exact hnd.1 (List.mem_map.mpr ⟨j, hj, e⟩)
        show mapFind (mapInsert _ _ _) _ = none
        rw [mapFind_mapInsert_ne _ _ hne]
        exact hfresh j (List.mem_cons_of_mem _ hj))
      (by simp only [List.length_append, List.length_singleton]; omega)
    refine ⟨s', ?_, ?_, ?_, ?_, hh, hm, hcl⟩
    · simp only [List.map_cons, runCalls, Insertion.call, Call.apply, hadd]
      exact hrun
    · rw [hq]
      simp [Insertion.record]
    · intro j hj
      rcases List.mem_cons.mp hj with hji | hji
      · subst hji
        rw [hout _ hnd.1]
        exact mapFind_mapInsert_self _ _ _
      · exact hin j hji
    · intro h hh'
      simp only [List.map_cons, List.mem_cons, not_or] at hh'
      rw [hout h hh'.2]
      exact mapFind_mapInsert_ne _ _ hh'.1

/-! ## Frame numbers and timeouts -/

theorem ticksOf_append (a b : List Call) : ticksOf (a ++ b) = ticksOf a ++ ticksOf b := by
  induction a with
  | nil => rfl
  | cons c cs ih =>
    cases c <;> simp [ticksOf, ih]

theorem capacityCheck_sublist {env : Env} {s s0 : CPathCache}
    (h : capacityCheck env s = .ok s0) : s0.cacheQue.Sublist s.cacheQue := by
  unfold capacityCheck at h
  split at h
  · obtain ⟨cq, rest, ci, hq, -, heq⟩ := RemoveFrontQueItem_ok h
    subst heq
    rw [hq]
    exact List.sublist_cons_self _ _
  · cases h
    exact List.Sublist.refl _

theorem AddPath_ok_cases {env : Env} {t : Int} {p : IPath.Path} {r : IPath.SearchResult}
    {k : CacheKey} {s s' : CPathCache} {b : Bool}
    (h : AddPath env t p r k s = .ok (b, s')) :
    ∃ s0, capacityCheck env s = .ok s0
      ∧ ((mapFind s0.cachedPaths (env.GetHash k) = none ∧ b = false
            ∧ s' = { s0 with
                cachedPaths := mapInsert s0.cachedPaths (env.GetHash k) (CacheItem.make p r k),
                cacheQue := s0.cacheQue ++
                  [{ hash := env.GetHash k, timeout := t + env.GAME_SPEED * 7 }] })
        ∨ (∃ ci, mapFind s0.cachedPaths (env.GetHash k) = some ci ∧ b = HashCollision ci k
            ∧ s' = { s0 with
                numHashCollisions :=
                  s0.numHashCollisions + (if HashCollision ci k then 1 else 0) })) := by
  cases hc : capacityCheck env s with
  | error e => simp [AddPath, hc] at h
  | ok s0 =>
    refine ⟨s0, rfl, ?_⟩
    cases hk : mapFind s0.cachedPaths (env.GetHash k) with
    | none =>
      rw [AddPath_of_none t p r k hc hk] at h
      simp only [Except.ok.injEq, Prod.mk.injEq] at h
      exact Or.inl ⟨rfl, h.1.symm, h.2.symm⟩
    | some ci =>
      rw [AddPath_of_some t p r k hc hk] at h
      simp only [Except.ok.injEq, Prod.mk.injEq] at h
      exact Or.inr ⟨ci, rfl, h.1.symm, h.2.symm⟩

/-- One call keeps the queue sorted when its frame number is not below the
bound `b` on the frame numbers read so far; `b'` is the bound afterwards. -/
theorem Call_apply_sorted (env : Env) (c : Call) (b b' : Int) {s s' : CPathCache}
    (hi : QueueInStore s) (hn : QueueNodup s) (hs : QueueSorted s)
    (hb : ∀ q ∈ s.cacheQue, q.timeout ≤ b + env.GAME_SPEED * 7)
    (hbb : b ≤ b') (ht : ∀ x ∈ ticksOf [c], b ≤ x ∧ x ≤ b')
    (happ : c.apply env s = .ok s') :
    QueueSorted s' ∧ ∀ q ∈ s'.cacheQue, q.timeout ≤ b' + env.GAME_SPEED * 7 := by
  have hb' : ∀ q ∈ s.cacheQue, q.timeout ≤ b' + env.GAME_SPEED * 7 :=
    fun q hq => le_trans (hb q hq) (by omega)
  cases c with
  | addPath t p r k =>
    have htt : b ≤ t ∧ t ≤ b' := ht t (by simp [ticksOf])
    cases hadd : AddPath env t p r k s with
    | error e => simp [Call.apply, hadd] at happ
    | ok res =>
      obtain ⟨bo, s1⟩ := res
      simp only [Call.apply, hadd, Except.ok.injEq] at happ
      subst happ
      obtain ⟨s0, hc, hcase⟩ := AddPath_ok_cases hadd
      have hsub := capacityCheck_sublist hc
      have hs0 : (s0.cacheQue.map CacheQue.timeout).Pairwise (fun a b => a ≤ b) :=
        List.Pairwise.sublist (hsub.map _) hs
      rcases hcase with ⟨-, -, heq⟩ | ⟨ci, -, -, heq⟩
      · subst heq
        constructor
        · show ((s0.cacheQue ++ [(⟨env.GetHash k, t + env.GAME_SPEED * 7⟩ : CacheQue)]).map
            CacheQue.timeout).Pairwise (fun a b => a ≤ b)
          rw [List.map_append, List.pairwise_append]
          refine ⟨hs0, by simp, ?_⟩
          intro a ha x hx
          simp only [List.map_cons, List.map_nil, List.mem_singleton] at hx
          subst hx
          obtain ⟨q, hq, rfl⟩ := List.mem_map.mp ha
          have := hb q (hsub.subset hq)
          omega
        · intro q hq
          have hq' : q ∈ s0.cacheQue ++ [(⟨env.GetHash k, t + env.GAME_SPEED * 7⟩ : CacheQue)] :=
            hq
          rcases List.mem_append.mp hq' with h1 | h1
          · exact hb' q (hsub.subset h1)
          · simp only [List.mem_singleton] at h1
            subst h1
            show t + env.GAME_SPEED * 7 ≤ b' + env.GAME_SPEED * 7
            omega
      · subst heq
        exact ⟨hs0, fun q hq => hb' q (hsub.subset hq)⟩
  | getCachedPath k =>
    simp only [Call.apply, Except.ok.injEq] at happ
    subst happ
    obtain ⟨-, h2⟩ := GetCachedPath_frame env k s
    unfold QueueSorted
    rw [h2]
    exact ⟨hs, hb'⟩
  | update t =>
    obtain ⟨s2, h, heq, -, -⟩ := Update_inv t hi hn
    simp only [Call.apply, h, Except.ok.injEq] at happ
    subst happ
    subst heq
    have hsub : (livePart t s.cacheQue).Sublist s.cacheQue := List.dropWhile_sublist _
    exact ⟨List.Pairwise.sublist (hsub.map _) hs, fun q hq => hb' q (hsub.subset hq)⟩

theorem runCalls_sorted (env : Env) (cs : List Call) (b : Int) {s s' : CPathCache}
    (hi : QueueInStore s) (hn : QueueNodup s) (hs : QueueSorted s)
    (hb : ∀ q ∈ s.cacheQue, q.timeout ≤ b + env.GAME_SPEED * 7)
    (ht : (b :: ticksOf cs).Pairwise (fun a b => a ≤ b))
    (hrun : runCalls env cs s = .ok s') :
    QueueSorted s' ∧ ∀ B, (∀ x ∈ b :: ticksOf cs, x ≤ B) →
      ∀ q ∈ s'.cacheQue, q.timeout ≤ B + env.GAME_SPEED * 7 := by
  induction cs generalizing s b with
  | nil =>
    simp only [runCalls, Except.ok.injEq] at hrun
    subst hrun
    refine ⟨hs, fun B hB q hq => le_trans (hb q hq) ?_⟩
    have := hB b (List.mem_cons_self _ _)
    omega
  | cons c cs ih =>
    obtain ⟨s1, h1, hi1, hn1, -⟩ := Call_apply_inv env c hi hn
    simp only [runCalls, h1] at hrun
    cases c with
    | getCachedPath k =>
      obtain ⟨hs1, hb1⟩ := Call_apply_sorted env (.getCachedPath k) b b hi hn hs hb
        (le_refl _) (by simp [ticksOf]) h1
      exact ih b hi1 hn1 hs1 hb1 ht hrun
    | addPath t p r k =>
      have ht' : (b :: t :: ticksOf cs).Pairwise (fun a b => a ≤ b) := ht
      have hbt : b ≤ t := (List.pairwise_cons.mp ht').1 t (List.mem_cons_self _ _)
      obtain ⟨hs1, hb1⟩ := Call_apply_sorted env (.addPath t p r k) b t hi hn hs hb
        hbt (by simp [ticksOf, hbt]) h1
      obtain ⟨hs', hB'⟩ := ih t hi1 hn1 hs1 hb1 (List.pairwise_cons.mp ht').2 hrun
      refine ⟨hs', fun B hB => hB' B ?_⟩
      intro x hx
      exact hB x (List.mem_cons_of_mem _ hx)
    | update t =>
      have ht' : (b :: t :: ticksOf cs).Pairwise (fun a b => a ≤ b) := ht
      have hbt : b ≤ t := (List.pairwise_cons.mp ht').1 t (List.mem_cons_self _ _)
      obtain ⟨hs1, hb1⟩ := Call_apply_sorted env (.update t) b t hi hn hs hb
        hbt (by simp [ticksOf, hbt]) h1
      obtain ⟨hs', hB'⟩ := ih t hi1 hn1 hs1 hb1 (List.pairwise_cons.mp ht').2 hrun
      refine ⟨hs', fun B hB => hB' B ?_⟩
      intro x hx
      exact hB x (List.mem_cons_of_mem _ hx)

/-- With frame numbers that never decrease, a state reached from the empty
cache has a sorted queue, and every timeout is at most `B + GAME_SPEED * 7`
for any `B` that bounds the frame numbers read. -/
theorem reachable_sorted {env : Env} {cs : List Call} {bx bz : Int} {s : CPathCache}
    (hrun : runCalls env cs (CPathCache.new bx bz) = .ok s) (hm : MonotoneTicks cs) :
    QueueSorted s ∧ ∀ B, (∀ x ∈ ticksOf cs, x ≤ B) →
      ∀ q ∈ s.cacheQue, q.timeout ≤ B + env.GAME_SPEED * 7 := by
  have hnew := new_inv bx bz
  have hsn : QueueSorted (CPathCache.new bx bz) := by simp [QueueSorted, CPathCache.new]
  have hbn : ∀ b : Int, ∀ q ∈ (CPathCache.new bx bz).cacheQue,
      q.timeout ≤ b + env.GAME_SPEED * 7 := by
    intro b q hq
    simp [CPathCache.new] at hq
  cases htk : ticksOf cs with
  | nil =>
    have ht : ((0 : Int) :: ticksOf cs).Pairwise (fun a b => a ≤ b) := by
      rw [htk]; simp
    obtain ⟨h1, -⟩ := runCalls_sorted env cs 0 hnew.1 hnew.2 hsn (hbn 0) ht hrun
    refine ⟨h1, fun B _ q hq => ?_⟩
    exact (runCalls_sorted env cs B hnew.1 hnew.2 hsn (hbn B)
      (by rw [htk]; simp) hrun).2 B (by rw [htk]; simp) q hq
  | cons x xs =>
    have hm' : (x :: xs).Pairwise (fun a b => a ≤ b) := by
      have := hm
      unfold MonotoneTicks at this
      rwa [htk] at this
    have ht : (x :: ticksOf cs).Pairwise (fun a b => a ≤ b) := by
      rw [htk]
      refine List.pairwise_cons.mpr ⟨?_, hm'⟩
      intro y hy
      rcases List.mem_cons.mp hy with h | h
      · rw [h]
      · exact (List.pairwise_cons.mp hm').1 y h
    obtain ⟨h1, h2⟩ := runCalls_sorted env cs x hnew.1 hnew.2 hsn (hbn x) ht hrun
    refine ⟨h1, fun B hB q hq => h2 B ?_ q hq⟩
    intro y hy
    rcases List.mem_cons.mp hy with h | h
    · rw [h]; exact hB x (List.mem_cons_self _ _)
    · exact hB y (htk ▸ h)

theorem livePart_eq_filter (t : Int) (q : List CacheQue)
    (hs : (q.map CacheQue.timeout).Pairwise (fun a b => a ≤ b)) :
    livePart t q = q.filter (fun c => decide (t ≤ c.timeout)) := by
  induction q with
  | nil => rfl
  | cons c rest ih =>
    simp only [List.map_cons, List.pairwise_cons] at hs
    by_cases hlt : c.timeout < t
    · have hnle : ¬ t ≤ c.timeout := by omega
      have h1 : livePart t (c :: rest) = livePart t rest := by
        simp [livePart, List.dropWhile, hlt]
      rw [h1, ih hs.2]
      simp [List.filter, hnle]
    · have hle : t ≤ c.timeout := by omega
      have h1 : livePart t (c :: rest) = c :: rest := by
        simp [livePart, List.dropWhile, hlt]
      rw [h1]
      symm
      rw [List.filter_eq_self]
      intro a ha
      rcases List.mem_cons.mp ha with h | h
      · subst h; simpa using hle
      · have := hs.1 a.timeout (List.mem_map_of_mem _ h)
        simp only [decide_eq_true_eq]
        omega

theorem expiredPrefix_eq_filter (t : Int) (q : List CacheQue)
    (hs : (q.map CacheQue.timeout).Pairwise (fun a b => a ≤ b)) :
    expiredPrefix t q = q.filter (fun c => decide (c.timeout < t)) := by
  induction q with
  | nil => rfl
  | cons c rest ih =>
    simp only [List.map_cons, List.pairwise_cons] at hs
    by_cases hlt : c.timeout < t
    · have h1 : expiredPrefix t (c :: rest) = c :: expiredPrefix t rest := by
        simp [expiredPrefix, List.takeWhile, hlt]
      rw [h1, ih hs.2]
      simp [List.filter, hlt]
    · have h1 : expiredPrefix t (c :: rest) = [] := by
        simp [expiredPrefix, List.takeWhile, hlt]
      rw [h1]
      symm
      rw [List.filter_eq_nil_iff]
      intro a ha
      rcases List.mem_cons.mp ha with h | h
      · subst h; simpa using hlt
      · have := hs.1 a.timeout (List.mem_map_of_mem _ h)
        simp only [decide_eq_true_eq]
        omega

theorem Update_counters (t : Int) {s s' : CPathCache} (hi : QueueInStore s)
    (hn : QueueNodup s) (h : Update t s = .ok s') :
    s'.numCacheHits = s.numCacheHits ∧ s'.numCacheMisses = s.numCacheMisses
      ∧ s'.numHashCollisions = s.numHashCollisions := by
  obtain ⟨s2, h2, heq, -, -⟩ := Update_inv t hi hn
  rw [h] at h2
  cases h2
  subst heq
  exact ⟨rfl, rfl, rfl⟩

/-! ## Every stored entry has a queue record -/

theorem mapFind_isSome_iff (m : CachedPathMap) (h : Nat) :
    (mapFind m h).isSome = true ↔ ∃ e ∈ m, e.1 = h := by
  induction m with
  | nil => simp [mapFind]
  | cons e rest ih =>
    obtain ⟨k, v⟩ := e
    by_cases hk : k = h
    · simp [mapFind, hk]
    · simp [mapFind, hk, ih]

theorem storeInQueue_iff (s : CPathCache) :
    StoreInQueue s ↔
      ∀ h, (mapFind s.cachedPaths h).isSome = true → h ∈ s.cacheQue.map CacheQue.hash := by
  constructor
  · intro hs h hh
    obtain ⟨e, he, rfl⟩ := (mapFind_isSome_iff _ _).mp hh
    exact hs e he
  · intro hs e he
    exact hs e.1 ((mapFind_isSome_iff _ _).mpr ⟨e, he, rfl⟩)

theorem capacityCheck_storeInQueue {env : Env} {s s0 : CPathCache}
    (hc : capacityCheck env s = .ok s0) (hs : StoreInQueue s) : StoreInQueue s0 := by
  unfold capacityCheck at hc
  split at hc
  · obtain ⟨cq, rest, ci, hq, -, heq⟩ := RemoveFrontQueItem_ok hc
    rw [storeInQueue_iff] at hs ⊢
    intro h hh
    subst heq
    have hh' : (mapFind (mapErase s.cachedPaths cq.hash) h).isSome = true := hh
    rw [mapFind_mapErase] at hh'
    by_cases hne : h = cq.hash
    · simp [hne] at hh'
    · simp only [hne, if_false] at hh'
      have := hs h hh'
      rw [hq] at this
      simp only [List.map_cons, List.mem_cons] at this
      rcases this with h1 | h1
      · exact absurd h1 hne
      · exact h1
  · cases hc
    exact hs

theorem Call_apply_storeInQueue (env : Env) (c : Call) {s s' : CPathCache}
    (hi : QueueInStore s) (hn : QueueNodup s) (hs : StoreInQueue s)
    (happ : c.apply env s = .ok s') : StoreInQueue s' := by
  cases c with
  | addPath t p r k =>
    cases hadd : AddPath env t p r k s with
    | error e => simp [Call.apply, hadd] at happ
    | ok res =>
      obtain ⟨bo, s1⟩ := res
      simp only [Call.apply, hadd, Except.ok.injEq] at happ
      subst happ
      obtain ⟨s0, hc, hcase⟩ := AddPath_ok_cases hadd
      have hs0 := capacityCheck_storeInQueue hc hs
      rcases hcase with ⟨-, -, heq⟩ | ⟨ci, -, -, heq⟩
      · rw [storeInQueue_iff] at hs0 ⊢
        intro h hh
        subst heq
        have hh' : (mapFind (mapInsert s0.cachedPaths (env.GetHash k)
            (CacheItem.make p r k)) h).isSome = true := hh
        show h ∈ (s0.cacheQue ++
          [(⟨env.GetHash k, t + env.GAME_SPEED * 7⟩ : CacheQue)]).map CacheQue.hash
        rw [mapFind_mapInsert] at hh'
        by_cases hne : h = env.GetHash k
        · simp [hne]
        · simp only [hne, if_false] at hh'
          have := hs0 h hh'
          simp [this]
      · subst heq
        exact hs0
  | getCachedPath k =>
    simp only [Call.apply, Except.ok.injEq] at happ
    subst happ
    obtain ⟨h1, h2⟩ := GetCachedPath_frame env k s
    unfold StoreInQueue
    rw [h1, h2]
    exact hs
  | update t =>
    obtain ⟨s2, h, heq, -, -⟩ := Update_inv t hi hn
    simp only [Call.apply, h, Except.ok.injEq] at happ
    subst happ
    rw [storeInQueue_iff] at hs ⊢
    intro x hx
    subst heq
    have hx' : (mapFind (eraseAll s.cachedPaths (expiredPrefix t s.cacheQue)) x).isSome
        = true := hx
    show x ∈ (livePart t s.cacheQue).map CacheQue.hash
    rw [mapFind_eraseAll] at hx'
    by_cases hmem : x ∈ (expiredPrefix t s.cacheQue).map CacheQue.hash
    · simp [hmem] at hx'
    · simp only [hmem, if_false] at hx'
      have hin := hs x hx'
      have hsplit : s.cacheQue = expiredPrefix t s.cacheQue ++ livePart t s.cacheQue :=
        (List.takeWhile_append_dropWhile _ _).symm
      rw [hsplit, List.map_append, List.mem_append] at hin
      rcases hin with h1 | h1
      · exact absurd h1 hmem
      · exact h1

theorem runCalls_storeInQueue (env : Env) (cs : List Call) {s s' : CPathCache}
    (hi : QueueInStore s) (hn : QueueNodup s) (hs : StoreInQueue s)
    (hrun : runCalls env cs s = .ok s') : StoreInQueue s' := by
  induction cs generalizing s with
  | nil =>
    simp only [runCalls, Except.ok.injEq] at hrun
    subst hrun
    exact hs
  | cons c cs ih =>
    obtain ⟨s1, h1, hi1, hn1, -⟩ := Call_apply_inv env c hi hn
    simp only [runCalls, h1] at hrun
    exact ih hi1 hn1 (Call_apply_storeInQueue env c hi hn hs h1) hrun

theorem reachable_storeInQueue {env : Env} {cs : List Call} {bx bz : Int} {s : CPathCache}
    (h : runCalls env cs (CPathCache.new bx bz) = .ok s) : StoreInQueue s :=
  runCalls_storeInQueue env cs (new_inv bx bz).1 (new_inv bx bz).2
    (by intro e he; simp [CPathCache.new] at he) h

/-! ## Pruning -/

theorem capacityCheck_find {env : Env} {s s0 : CPathCache} {h : Nat} {ci : CacheItem}
    (hc : capacityCheck env s = .ok s0) (hf : mapFind s0.cachedPaths h = some ci) :
    mapFind s.cachedPaths h = some ci := by
  unfold capacityCheck at hc
  split at hc
  · obtain ⟨cq, rest, cj, -, -, heq⟩ := RemoveFrontQueItem_ok hc
    subst heq
    have hf' : mapFind (mapErase s.cachedPaths cq.hash) h = some ci := hf
    rw [mapFind_mapErase] at hf'
    split at hf'
    · cases hf'
    · exact hf'
  · cases hc
    exact hf

/-- When every queued timeout lies before frame `t`, `Update` at `t` empties
the queue and erases the entry of every record. -/
theorem Update_all_expired (t : Int) {s : CPathCache} (hi : QueueInStore s)
    (hn : QueueNodup s) (hall : ∀ q ∈ s.cacheQue, q.timeout < t) :
    ∃ s', Update t s = .ok s' ∧ s'.cacheQue = []
      ∧ ∀ q ∈ s.cacheQue, mapFind s'.cachedPaths q.hash = none := by
  obtain ⟨s', hup, heq, -, -⟩ := Update_inv t hi hn
  have hpre : expiredPrefix t s.cacheQue = s.cacheQue := by
    unfold expiredPrefix
    rw [List.takeWhile_eq_self_iff]
    intro q hq
    simpa using hall q hq
  have hlive : livePart t s.cacheQue = [] := by
    unfold livePart
    rw [List.dropWhile_eq_nil_iff]
    intro q hq
    simpa using hall q hq
  refine ⟨s', hup, ?_, ?_⟩
  · rw [heq]; exact hlive
  · intro q hq
    rw [heq]
    show mapFind (eraseAll s.cachedPaths (expiredPrefix t s.cacheQue)) q.hash = none
    rw [hpre, mapFind_eraseAll]
    simp [List.mem_map_of_mem CacheQue.hash hq]

/-- A record whose timeout is not below `t` survives `Update` at `t`, and so
does its entry. -/
theorem Update_keeps (t : Int) {s : CPathCache} (hi : QueueInStore s) (hn : QueueNodup s)
    {q : CacheQue} (hq : q ∈ s.cacheQue) (hge : t ≤ q.timeout) :
    ∃ s', Update t s = .ok s' ∧ q ∈ s'.cacheQue
      ∧ mapFind s'.cachedPaths q.hash = mapFind s.cachedPaths q.hash
      ∧ (∀ c ∈ s.cacheQue, c ∉ s'.cacheQue → c.timeout < t)
      ∧ s'.numCacheHits = s.numCacheHits ∧ s'.numCacheMisses = s.numCacheMisses
      ∧ s'.numHashCollisions = s.numHashCollisions := by
  obtain ⟨s', hup, heq, -, -⟩ := Update_inv t hi hn
  have hsplit : s.cacheQue = expiredPrefix t s.cacheQue ++ livePart t s.cacheQue :=
    (List.takeWhile_append_dropWhile _ _).symm
  have hexp : ∀ c ∈ expiredPrefix t s.cacheQue, c.timeout < t := by
    intro c hc
    have := List.mem_takeWhile_imp hc
    simpa using this
  have hsub : ∀ c ∈ expiredPrefix t s.cacheQue, c ∈ s.cacheQue := by
    intro c hc
    rw [hsplit]
    exact List.mem_append_left _ hc
  have hrest : ∀ c ∈ s.cacheQue, c ∉ livePart t s.cacheQue → c ∈ expiredPrefix t s.cacheQue := by
    intro c hc hnot
    rw [hsplit] at hc
    rcases List.mem_append.mp hc with h1 | h1
    · exact h1
    · exact absurd h1 hnot
  have hqlive : q ∈ livePart t s.cacheQue := by
    by_contra hnot
    have := hexp q (hrest q hq hnot)
    omega
  have hinj := List.inj_on_of_nodup_map hn
  refine ⟨s', hup, ?_, ?_, ?_, ?_, ?_, ?_⟩
  · rw [heq]; exact hqlive
  · rw [heq]
    show mapFind (eraseAll s.cachedPaths (expiredPrefix t s.cacheQue)) q.hash = _
    rw [mapFind_eraseAll]
    have : q.hash ∉ (expiredPrefix t s.cacheQue).map CacheQue.hash := by
      intro hmem
      obtain ⟨c, hc, he⟩ := List.mem_map.mp hmem
      have hcq : c = q := hinj (hsub c hc) hq he
      have := hexp c hc
      rw [hcq] at this
      omega
    simp [this]
  · intro c hc hnot
    rw [heq] at hnot
    exact hexp c (hrest c hc hnot)
  · rw [heq]
  · rw [heq]
  · rw [heq]

/-! ## Removals -/

theorem UpdateLoop_ok_prefix (t : Int) (fuel : Nat) {s s' : CPathCache}
    (h : UpdateLoop t fuel s = .ok s') :
    ∃ removed, s.cacheQue = removed ++ s'.cacheQue
      ∧ s'.cachedPaths = eraseAll s.cachedPaths removed
      ∧ (∀ q ∈ removed, q.timeout < t)
      ∧ s'.numCacheHits = s.numCacheHits ∧ s'.numCacheMisses = s.numCacheMisses
      ∧ s'.numHashCollisions = s.numHashCollisions := by
  induction fuel generalizing s with
  | zero => simp [UpdateLoop] at h
  | succ n ih =>
    unfold UpdateLoop at h
    cases hq : s.cacheQue with
    | nil =>
      rw [hq] at h
      simp only [Except.ok.injEq] at h
      subst h
      exact ⟨[], by simp [hq], rfl, by simp, rfl, rfl, rfl⟩
    | cons cq rest =>
      rw [hq] at h
      by_cases hlt : cq.timeout < t
      · simp only [hlt, if_true] at h
        cases hr : RemoveFrontQueItem s with
        | error e => rw [hr] at h; simp at h
        | ok s1 =>
          rw [hr] at h
          obtain ⟨cq', rest', ci, hq', -, heq⟩ := RemoveFrontQueItem_ok hr
          rw [hq] at hq'
          simp only [List.cons.injEq] at hq'
          obtain ⟨hcq, hrest⟩ := hq'
          subst hcq hrest
          obtain ⟨removed, h1, h2, h3, h4, h5, h6⟩ := ih h
          subst heq
          refine ⟨cq :: removed, ?_, ?_, ?_, h4, h5, h6⟩
          · show cq :: rest = cq :: removed ++ s'.cacheQue
            have h1' : rest = removed ++ s'.cacheQue := h1
            rw [h1']
            rfl
          · rw [h2]
            rfl
          · intro q hq2
            rcases List.mem_cons.mp hq2 with e | e
            · rw [e]; exact hlt
            · exact h3 q e
      · simp only [hlt, if_false, Except.ok.injEq] at h
        subst h
        exact ⟨[], by simp [hq], rfl, by simp, rfl, rfl, rfl⟩

/-- When a front part of a queue without duplicate hashes has been removed,
every record queued before a removed record has been removed as well. -/
theorem removed_before {removed kept pre post : List CacheQue} {q : CacheQue}
    (hnd : ((removed ++ kept).map CacheQue.hash).Nodup)
    (hsplit : removed ++ kept = pre ++ q :: post) (hq : q ∉ kept) :
    ∀ q' ∈ pre, q' ∉ kept := by
  have hdis := List.disjoint_of_nodup_append (List.Nodup.of_map _ hnd)
  rcases List.append_eq_append_iff.mp hsplit with ⟨a', h1, h2⟩ | ⟨c', h1, h2⟩
  · exact absurd (by rw [h2]; simp) hq
  · intro q' hq' hk
    exact hdis (by rw [h1]; exact List.mem_append_left _ hq') hk

/-! ## The number of stored entries -/

theorem mem_keys_iff (m : CachedPathMap) (h : Nat) :
    h ∈ m.map Prod.fst ↔ (mapFind m h).isSome = true := by
  rw [mapFind_isSome_iff, List.mem_map]

theorem mapInsert_keys_nodup (m : CachedPathMap) (h : Nat) (ci : CacheItem)
    (hnd : (m.map Prod.fst).Nodup) (hk : mapFind m h = none) :
    ((mapInsert m h ci).map Prod.fst).Nodup := by
  have hnot : h ∉ m.map Prod.fst := by
    rw [mem_keys_iff, hk]; simp
  induction m with
  | nil => simp [mapInsert]
  | cons e rest ih =>
    obtain ⟨k, v⟩ := e
    simp only [List.map_cons, List.nodup_cons, List.mem_cons, not_or] at hnd hnot
    have hne : ¬ k = h := fun e => hnot.1 e.symm
    have hk' : mapFind rest h = none := by
      simpa [mapFind, hne] using hk
    unfold mapInsert
    by_cases h1 : h < k
    · simp only [h1, if_true, List.map_cons, List.nodup_cons, List.mem_cons, not_or]
      exact ⟨⟨hnot.1, hnot.2⟩, hnd.1, hnd.2⟩
    · have h2 : ¬ h = k := hnot.1
      simp only [h1, h2, if_false, List.map_cons, List.nodup_cons]
      refine ⟨?_, ih hnd.2 hk' hnot.2⟩
      rw [mem_keys_iff, mapFind_mapInsert]
      simp only [hne, if_false]
      rw [← mem_keys_iff]
      exact hnd.1

theorem mapErase_keys_nodup (m : CachedPathMap) (h : Nat) (hnd : (m.map Prod.fst).Nodup) :
    ((mapErase m h).map Prod.fst).Nodup :=
  List.Nodup.sublist ((List.filter_sublist m).map Prod.fst) hnd

theorem eraseAll_keys_nodup (l : List CacheQue) (m : CachedPathMap)
    (hnd : (m.map Prod.fst).Nodup) : ((eraseAll m l).map Prod.fst).Nodup := by
  induction l generalizing m with
  | nil => exact hnd
  | cons c rest ih => exact ih (mapErase m c.hash) (mapErase_keys_nodup m c.hash hnd)

theorem capacityCheck_storeNodup {env : Env} {s s0 : CPathCache}
    (hc : capacityCheck env s = .ok s0) (hk : StoreNodup s) : StoreNodup s0 := by
  unfold capacityCheck at hc
  split at hc
  · obtain ⟨cq, rest, ci, -, -, heq⟩ := RemoveFrontQueItem_ok hc
    subst heq
    exact mapErase_keys_nodup _ _ hk
  · cases hc
    exact hk

theorem Call_apply_storeNodup (env : Env) (c : Call) {s s' : CPathCache}
    (hk : StoreNodup s) (happ : c.apply env s = .ok s') : StoreNodup s' := by
  cases c with
  | addPath t p r k =>
    cases hadd : AddPath env t p r k s with
    | error e => simp [Call.apply, hadd] at happ
    | ok res =>
      obtain ⟨bo, s1⟩ := res
      simp only [Call.apply, hadd, Except.ok.injEq] at happ
      subst happ
      obtain ⟨s0, hc, hcase⟩ := AddPath_ok_cases hadd
      have hk0 := capacityCheck_storeNodup hc hk
      rcases hcase with ⟨hnone, -, heq⟩ | ⟨ci, -, -, heq⟩
      · subst heq
        exact mapInsert_keys_nodup _ _ _ hk0 hnone
      · subst heq
        exact hk0
  | getCachedPath k =>
    simp only [Call.apply, Except.ok.injEq] at happ
    subst happ
    unfold StoreNodup
    rw [(GetCachedPath_frame env k s).1]
    exact hk
  | update t =>
    obtain ⟨removed, -, h2, -⟩ := UpdateLoop_ok_prefix t _ happ
    unfold StoreNodup
    rw [h2]
    exact eraseAll_keys_nodup _ _ hk

theorem runCalls_storeNodup (env : Env) (cs : List Call) {s s' : CPathCache}
    (hk : StoreNodup s) (hrun : runCalls env cs s = .ok s') : StoreNodup s' := by
  induction cs generalizing s with
  | nil =>
    simp only [runCalls, Except.ok.injEq] at hrun
    subst hrun
    exact hk
  | cons c cs ih =>
    cases h1 : c.apply env s with
    | error e => simp [runCalls, h1] at hrun
    | ok s1 =>
      simp only [runCalls, h1] at hrun
      exact ih (Call_apply_storeNodup env c hk h1) hrun

theorem reachable_storeNodup {env : Env} {cs : List Call} {bx bz : Int} {s : CPathCache}
    (h : runCalls env cs (CPathCache.new bx bz) = .ok s) : StoreNodup s :=
  runCalls_storeNodup env cs (by simp [StoreNodup, CPathCache.new]) h

/-- When queue and store hold the same hashes, each once, they have the same
number of elements. -/
theorem queue_store_length {s : CPathCache} (hi : QueueInStore s) (hs : StoreInQueue s)
    (hn : QueueNodup s) (hk : StoreNodup s) :
    s.cacheQue.length = s.cachedPaths.length := by
  have h1 : (s.cacheQue.map CacheQue.hash) ⊆ (s.cachedPaths.map Prod.fst) := by
    intro h hh
    obtain ⟨q, hq, rfl⟩ := List.mem_map.mp hh
    exact (mem_keys_iff _ _).mpr (hi q hq)
  have h2 : (s.cachedPaths.map Prod.fst) ⊆ (s.cacheQue.map CacheQue.hash) := by
    intro h hh
    obtain ⟨e, he, rfl⟩ := List.mem_map.mp hh
    exact hs e he
  have l1 := (List.Nodup.subperm hn h1).length_le
  have l2 := (List.Nodup.subperm hk h2).length_le
  simp only [List.length_map] at l1 l2
  omega

theorem reachable_length {env : Env} {cs : List Call} {bx bz : Int} {s : CPathCache}
    (h : runCalls env cs (CPathCache.new bx bz) = .ok s) :
    s.cacheQue.length = s.cachedPaths.length :=
  queue_store_length (reachable_inv h).1 (reachable_storeInQueue h) (reachable_inv h).2.1
    (reachable_storeNodup h)

/-! ## Stored items and their hashes -/

theorem HashCollision_eq_false (ci : CacheItem) (k : CacheKey) :
    HashCollision ci k = false ↔
      ci.startBlock = k.startBlock ∧ ci.goalBlock = k.goalBlock
        ∧ ci.goalRadius = k.goalRadius ∧ ci.pathType = k.pathType := by
  unfold HashCollision
  by_cases h1 : ci.startBlock = k.startBlock <;> by_cases h2 : ci.goalBlock = k.goalBlock <;>
    by_cases h3 : ci.goalRadius = k.goalRadius <;> by_cases h4 : ci.pathType = k.pathType <;>
    simp [h1, h2, h3, h4]

theorem GetCachedPath_some {env : Env} {s : CPathCache} {k : CacheKey} {ci : CacheItem}
    (h : (GetCachedPath env k s).1 = some ci) :
    mapFind s.cachedPaths (env.GetHash k) = some ci
      ∧ ci.startBlock = k.startBlock ∧ ci.goalBlock = k.goalBlock
      ∧ ci.pathType = k.pathType := by
  unfold GetCachedPath at h
  cases hf : mapFind s.cachedPaths (env.GetHash k) with
  | none => simp [hf] at h
  | some cj =>
    rw [hf] at h
    by_cases h1 : cj.startBlock = k.startBlock <;> by_cases h2 : cj.goalBlock = k.goalBlock <;>
      by_cases h3 : cj.pathType = k.pathType <;> simp [h1, h2, h3] at h
    subst h
    exact ⟨rfl, h1, h2, h3⟩

theorem capacityCheck_entriesHashed {env : Env} {s s0 : CPathCache}
    (hc : capacityCheck env s = .ok s0) (he : EntriesHashed env s) : EntriesHashed env s0 :=
  fun _ _ hf => he _ _ (capacityCheck_find hc hf)

theorem Call_apply_entriesHashed (env : Env) (c : Call) {s s' : CPathCache}
    (he : EntriesHashed env s) (happ : c.apply env s = .ok s') : EntriesHashed env s' := by
  cases c with
  | addPath t p r k =>
    cases hadd : AddPath env t p r k s with
    | error e => simp [Call.apply, hadd] at happ
    | ok res =>
      obtain ⟨bo, s1⟩ := res
      simp only [Call.apply, hadd, Except.ok.injEq] at happ
      subst happ
      obtain ⟨s0, hc, hcase⟩ := AddPath_ok_cases hadd
      have he0 := capacityCheck_entriesHashed hc he
      rcases hcase with ⟨-, -, heq⟩ | ⟨ci, -, -, heq⟩
      · subst heq
        intro h ci hf
        have hf' : mapFind (mapInsert s0.cachedPaths (env.GetHash k)
            (CacheItem.make p r k)) h = some ci := hf
        rw [mapFind_mapInsert] at hf'
        by_cases hh : h = env.GetHash k
        · simp only [hh, if_true, Option.some.injEq] at hf'
          subst hf'
          rw [hh]
          rfl
        · simp only [hh, if_false] at hf'
          exact he0 h ci hf'
      · subst heq
        exact he0
  | getCachedPath k =>
    simp only [Call.apply, Except.ok.injEq] at happ
    subst happ
    unfold EntriesHashed
    rw [(GetCachedPath_frame env k s).1]
    exact he
  | update t =>
    obtain ⟨removed, -, h2, -⟩ := UpdateLoop_ok_prefix t _ happ
    intro h ci hf
    rw [h2, mapFind_eraseAll] at hf
    split at hf
    · cases hf
    · exact he h ci hf

theorem runCalls_entriesHashed (env : Env) (cs : List Call) {s s' : CPathCache}
    (he : EntriesHashed env s) (hrun : runCalls env cs s = .ok s') :
    EntriesHashed env s' := by
  induction cs generalizing s with
  | nil =>
    simp only [runCalls, Except.ok.injEq] at hrun
    subst hrun
    exact he
  | cons c cs ih =>
    cases h1 : c.apply env s with
    | error e => simp [runCalls, h1] at hrun
    | ok s1 =>
      simp only [runCalls, h1] at hrun
      exact ih (Call_apply_entriesHashed env c he h1) hrun

/-! ## The loop of `Update`, step by step -/

theorem UpdateLoop_nil (t : Int) (n : Nat) {s : CPathCache} (hq : s.cacheQue = []) :
    UpdateLoop t (n + 1) s = .ok s := by
  unfold UpdateLoop
  rw [hq]

theorem UpdateLoop_keep (t : Int) (n : Nat) {s : CPathCache} {cq : CacheQue}
    {rest : List CacheQue} (hq : s.cacheQue = cq :: rest) (h : ¬ cq.timeout < t) :
    UpdateLoop t (n + 1) s = .ok s := by
  unfold UpdateLoop
  rw [hq]
  simp [h]

theorem UpdateLoop_step (t : Int) (n : Nat) {s : CPathCache} {cq : CacheQue}
    {rest : List CacheQue} (hq : s.cacheQue = cq :: rest) (h : cq.timeout < t) :
    UpdateLoop t (n + 1) s
      = match RemoveFrontQueItem s with
        | .error e => .error e
        | .ok s' => UpdateLoop t n s' := by
  conv_lhs => unfold UpdateLoop
  rw [hq]
  simp [h]

theorem RemoveFrontQueItem_queue {s s' : CPathCache} {cq : CacheQue} {rest : List CacheQue}
    (hq : s.cacheQue = cq :: rest) (h : RemoveFrontQueItem s = .ok s') :
    s'.cacheQue = rest := by
  obtain ⟨cq', rest', ci, hq', -, heq⟩ := RemoveFrontQueItem_ok h
  rw [hq] at hq'
  simp only [List.cons.injEq] at hq'
  rw [heq]
  exact hq'.2.symm

theorem RemoveFrontQueItem_error {s : CPathCache} {cq : CacheQue} {rest : List CacheQue}
    {e : Fault} (hq : s.cacheQue = cq :: rest) (h : RemoveFrontQueItem s = .error e) :
    e = .assertFailed := by
  unfold RemoveFrontQueItem at h
  rw [hq] at h
  cases hf : mapFind s.cachedPaths cq.hash with
  | none =>
    simp only [hf, Except.error.injEq] at h
    exact h.symm
  | some ci => simp [hf] at h

/-- Pruning at `t1` and then at `t2 ≥ t1` is pruning at `t2`, faults included. -/
theorem UpdateLoop_then_Update (t1 t2 : Int) (h12 : t1 ≤ t2) (fuel : Nat) (s : CPathCache)
    (hf : s.cacheQue.length < fuel) :
    (match UpdateLoop t1 fuel s with
      | .error e => .error e
      | .ok s1 => Update t2 s1) = Update t2 s := by
  induction fuel generalizing s with
  | zero => exact absurd hf (Nat.not_lt_zero _)
  | succ n ih =>
    cases hq : s.cacheQue with
    | nil => rw [UpdateLoop_nil t1 n hq]
    | cons cq rest =>
      by_cases hlt : cq.timeout < t1
      · have hlt2 : cq.timeout < t2 := by omega
        have hU : Update t2 s = match RemoveFrontQueItem s with
            | .error e => .error e
            | .ok s' => UpdateLoop t2 (rest.length + 1) s' := by
          unfold Update
          rw [hq]
          exact UpdateLoop_step t2 _ hq hlt2
        rw [UpdateLoop_step t1 n hq hlt, hU]
        cases hr : RemoveFrontQueItem s with
        | error e => rfl
        | ok s' =>
          have hq' := RemoveFrontQueItem_queue hq hr
          have hlen : s'.cacheQue.length < n := by
            rw [hq'];  rw [hq] at hf; simp only [List.length_cons] at hf; omega
          have := ih s' hlen
          simp only []
          rw [this]
          unfold Update
          rw [hq']
      · rw [UpdateLoop_keep t1 n hq hlt]

theorem UpdateLoop_fuel (t : Int) (f1 f2 : Nat) (s : CPathCache)
    (h1 : s.cacheQue.length < f1) (h2 : s.cacheQue.length < f2) :
    UpdateLoop t f1 s = UpdateLoop t f2 s := by
  induction f1 generalizing f2 s with
  | zero => exact absurd h1 (Nat.not_lt_zero _)
  | succ n ih =>
    cases f2 with
    | zero => exact absurd h2 (Nat.not_lt_zero _)
    | succ m =>
      cases hq : s.cacheQue with
      | nil => rw [UpdateLoop_nil t n hq, UpdateLoop_nil t m hq]
      | cons cq rest =>
        by_cases hlt : cq.timeout < t
        · rw [UpdateLoop_step t n hq hlt, UpdateLoop_step t m hq hlt]
          cases hr : RemoveFrontQueItem s with
          | error e => rfl
          | ok s' =>
            have hq' := RemoveFrontQueItem_queue hq hr
            rw [hq] at h1 h2
            simp only [List.length_cons] at h1 h2
            exact ih m s' (by rw [hq']; omega) (by rw [hq']; omega)
        · rw [UpdateLoop_keep t n hq hlt, UpdateLoop_keep t m hq hlt]

theorem UpdateLoop_faults (t : Int) (fuel : Nat) (s : CPathCache)
    (hf : s.cacheQue.length < fuel) (e : Fault) (h : UpdateLoop t fuel s = .error e) :
    e = .assertFailed := by
  induction fuel generalizing s with
  | zero => exact absurd hf (Nat.not_lt_zero _)
  | succ n ih =>
    cases hq : s.cacheQue with
    | nil => rw [UpdateLoop_nil t n hq] at h; cases h
    | cons cq rest =>
      by_cases hlt : cq.timeout < t
      · rw [UpdateLoop_step t n hq hlt] at h
        cases hr : RemoveFrontQueItem s with
        | error e' =>
          rw [hr] at h
          simp only [Except.error.injEq] at h
          rw [← h]
          exact RemoveFrontQueItem_error hq hr
        | ok s' =>
          rw [hr] at h
          have hq' := RemoveFrontQueItem_queue hq hr
          rw [hq] at hf
          simp only [List.length_cons] at hf
          exact ih s' (by rw [hq']; omega) h
      · rw [UpdateLoop_keep t n hq hlt] at h; cases h

theorem UpdateLoopSteps_fst (t : Int) (fuel : Nat) (s : CPathCache) :
    (UpdateLoopSteps t fuel s).map Prod.fst = UpdateLoop t fuel s := by
  induction fuel generalizing s with
  | zero => rfl
  | succ n ih =>
    unfold UpdateLoopSteps UpdateLoop
    cases s.cacheQue with
    | nil => rfl
    | cons cq rest =>
      by_cases hlt : cq.timeout < t
      · simp only [hlt, if_true]
        cases RemoveFrontQueItem s with
        | error e => rfl
        | ok s' =>
          simp only []
          rw [← ih s']
          cases UpdateLoopSteps t n s' with
          | error e => rfl
          | ok res => rfl
      · simp only [hlt, if_false]
        rfl

theorem UpdateLoopSteps_count (t : Int) (fuel : Nat) (s s' : CPathCache) (n : Nat)
    (h : UpdateLoopSteps t fuel s = .ok (s', n)) :
    s'.cacheQue.length + n = s.cacheQue.length := by
  induction fuel generalizing s n with
  | zero => simp [UpdateLoopSteps] at h
  | succ m ih =>
    unfold UpdateLoopSteps at h
    cases hq : s.cacheQue with
    | nil =>
      rw [hq] at h
      simp only [Except.ok.injEq, Prod.mk.injEq] at h
      rw [← h.1, ← h.2, hq]
      simp
    | cons cq rest =>
      rw [hq] at h
      by_cases hlt : cq.timeout < t
      · simp only [hlt, if_true] at h
        cases hr : RemoveFrontQueItem s with
        | error e => rw [hr] at h; simp at h
        | ok s1 =>
          rw [hr] at h
          simp only [] at h
          have hq1 := RemoveFrontQueItem_queue hq hr
          cases hl : UpdateLoopSteps t m s1 with
          | error e => rw [hl] at h; simp at h
          | ok res =>
            obtain ⟨s2, k⟩ := res
            rw [hl] at h
            simp only [Except.ok.injEq, Prod.mk.injEq] at h
            obtain ⟨h1, h2⟩ := h
            subst h1
            have := ih s1 k hl
            rw [hq1] at this
            rw [← h2]
            simp only [List.length_cons]
            omega
      · simp only [hlt, if_false, Except.ok.injEq, Prod.mk.injEq] at h
        rw [← h.1, ← h.2, hq]
        rfl

theorem Call_apply_counters (env : Env) (c : Call) {s s' : CPathCache}
    (happ : c.apply env s = .ok s') :
    s'.numCacheHits + s'.numCacheMisses
      = s.numCacheHits + s.numCacheMisses + lookupCount [c] := by
  cases c with
  | addPath t p r k =>
    cases hadd : AddPath env t p r k s with
    | error e => simp [Call.apply, hadd] at happ
    | ok res =>
      obtain ⟨bo, s1⟩ := res
      simp only [Call.apply, hadd, Except.ok.injEq] at happ
      subst happ
      obtain ⟨s0, hc, hcase⟩ := AddPath_ok_cases hadd
      obtain ⟨c1, c2, -, -, -⟩ := capacityCheck_counters hc
      rcases hcase with ⟨-, -, heq⟩ | ⟨ci, -, -, heq⟩
      · subst heq
        show s0.numCacheHits + s0.numCacheMisses = _
        rw [c1, c2]
        rfl
      · subst heq
        show s0.numCacheHits + s0.numCacheMisses = _
        rw [c1, c2]
        rfl
  | getCachedPath k =>
    simp only [Call.apply, Except.ok.injEq] at happ
    subst happ
    unfold GetCachedPath
    cases mapFind s.cachedPaths (env.GetHash k) with
    | none => simp [lookupCount]; omega
    | some ci =>
      simp only [lookupCount]
      split_ifs <;> simp <;> omega
  | update t =>
    obtain ⟨removed, -, -, -, h4, h5, -⟩ := UpdateLoop_ok_prefix t _ happ
    rw [h4, h5]
    rfl

theorem runCalls_counters (env : Env) (cs : List Call) {s s' : CPathCache}
    (hrun : runCalls env cs s = .ok s') :
    s'.numCacheHits + s'.numCacheMisses
      = s.numCacheHits + s.numCacheMisses + lookupCount cs := by
  induction cs generalizing s with
  | nil =>
    simp only [runCalls, Except.ok.injEq] at hrun
    subst hrun
    rfl
  | cons c cs ih =>
    cases h1 : c.apply env s with
    | error e => simp [runCalls, h1] at hrun
    | ok s1 =>
      simp only [runCalls, h1] at hrun
      have hc := Call_apply_counters env c h1
      have := ih hrun
      have hcount : lookupCount (c :: cs) = lookupCount [c] + lookupCount cs := by
        cases c <;> simp only [lookupCount] <;> omega
      omega

/-! ## The claims -/

/-- C1 (hit round-trip).  On a cache whose queue records all have their entry
(as in every reachable state, `reachable_inv`) and which holds no entry under
`GetHash k`, `AddPath p Ok k` at tick `t` succeeds without registering a
collision, and the `GetCachedPath k` that follows at once returns the entry
now stored under `GetHash k`; its path is `p`, its result is `Ok`, and the hit
counter has grown by one while the miss counter has not moved. -/
theorem C1_hit_round_trip (env : Env) (k : CacheKey) (p : IPath.Path) (t : Int)
    (s : CPathCache) (hi : QueueInStore s)
    (hk : mapFind s.cachedPaths (env.GetHash k) = none) :
    ∃ s1 ci s2, AddPath env t p .Ok k s = .ok (false, s1)
      ∧ mapFind s1.cachedPaths (env.GetHash k) = some ci
      ∧ GetCachedPath env k s1 = (some ci, s2)
      ∧ ci.path = p ∧ ci.result = .Ok
      ∧ s2.numCacheHits = s.numCacheHits + 1
      ∧ s2.numCacheMisses = s.numCacheMisses := by
  obtain ⟨s0, hc, hnone⟩ := capacityCheck_total env hi
  obtain ⟨hh, hm, -, -, -⟩ := capacityCheck_counters hc
  have hadd := AddPath_of_none t p .Ok k hc (hnone _ hk)
  refine ⟨_, CacheItem.make p .Ok k, _, hadd, ?_, GetCachedPath_make ?_, rfl, rfl, ?_, ?_⟩
  · exact mapFind_mapInsert_self _ _ _
  · exact mapFind_mapInsert_self _ _ _
  · show s0.numCacheHits + 1 = s.numCacheHits + 1
    rw [hh]
  · exact hm

/-- An instance of C1 on a cache that already holds two other entries. -/
theorem C1_hit_round_trip_witness :
    QueueInStore sampleState
      ∧ mapFind sampleState.cachedPaths (sampleEnv.GetHash (keyN 5)) = none
      ∧ ∃ s1 ci s2, AddPath sampleEnv 40 (pathN 5) .Ok (keyN 5) sampleState = .ok (false, s1)
        ∧ mapFind s1.cachedPaths (sampleEnv.GetHash (keyN 5)) = some ci
        ∧ GetCachedPath sampleEnv (keyN 5) s1 = (some ci, s2)
        ∧ ci.path = pathN 5 ∧ ci.result = .Ok
        ∧ s2.numCacheHits = sampleState.numCacheHits + 1
        ∧ s2.numCacheMisses = sampleState.numCacheMisses :=
  ⟨by decide, rfl,
    C1_hit_round_trip sampleEnv (keyN 5) (pathN 5) 40 sampleState (by decide) rfl⟩

/-- C2, as stated, fails.  With capacity 2 the three insertions of the scenario
(`keyN 0`, `keyN 1`, `keyN 2` at frames 0, 1, 2, pairwise distinct hashes) leave
the first key retrievable, and so do 101 insertions with the compiled capacity
100: the lookup of the first key is a hit returning its entry. -/
theorem C2_counterexample :
    ((List.range 3).map (fun n => scenarioEnv.GetHash (keyN n))).Nodup
      ∧ (runCalls scenarioEnv (addCalls 3) (CPathCache.new 8 8)).map
          (fun s => (GetCachedPath scenarioEnv (keyN 0) s).1)
        = .ok (some (CacheItem.make (pathN 0) .Ok (keyN 0)))
      ∧ ((List.range 101).map (fun n => sampleEnv.GetHash (keyN n))).Nodup
      ∧ (runCalls sampleEnv (addCalls 101) (CPathCache.new 8 8)).map
          (fun s => (GetCachedPath sampleEnv (keyN 0) s).1)
        = .ok (some (CacheItem.make (pathN 0) .Ok (keyN 0))) :=
  ⟨by decide, rfl, by decide, rfl⟩

/-- C2, amended (capacity eviction of the oldest key).  From the empty cache
with capacity `c = maxQueueSize`, and no other call in between, inserting
`c + 2` keys with pairwise distinct hashes (a first one, `c` more, and a last
one) succeeds, and afterwards `GetCachedPath` of the first key returns none:
the capacity check evicts the first key when the `(c + 2)`-th `AddPath` finds
`c + 1` records queued. -/
theorem C2_capacity_eviction (env : Env) (bx bz : Int) (first last : Insertion)
    (mid : List Insertion) (hlen : mid.length = env.maxQueueSize)
    (hnd : ((first :: mid ++ [last]).map (fun i => env.GetHash i.key)).Nodup) :
    ∃ s, runCalls env ((first :: mid ++ [last]).map Insertion.call) (CPathCache.new bx bz)
          = .ok s
      ∧ (GetCachedPath env first.key s).1 = none := by
  have hnd' : ((first :: mid).map (fun i => env.GetHash i.key)).Nodup
      ∧ env.GetHash last.key ∉ (first :: mid).map (fun i => env.GetHash i.key) := by
    have h := hnd
    rw [List.map_append, List.nodup_append] at h
    refine ⟨h.1, fun hmem => ?_⟩
    exact h.2.2 hmem (by simp)
  obtain ⟨sa, hrun, hq, hin, hout, -, -, -⟩ :=
    runCalls_insertions env (first :: mid) (CPathCache.new bx bz) hnd'.1
      (by intro i _; rfl)
      (by simp [CPathCache.new, hlen])
  have hqa : sa.cacheQue = Insertion.record env first :: mid.map (Insertion.record env) := by
    rw [hq]; simp [CPathCache.new]
  have hgt : env.maxQueueSize < sa.cacheQue.length := by
    rw [hqa]; simp [hlen]
  have hfirst : mapFind sa.cachedPaths (env.GetHash first.key) = some first.item :=
    hin first (List.mem_cons_self _ _)
  have hcap : capacityCheck env sa
      = .ok { sa with cachedPaths := mapErase sa.cachedPaths (env.GetHash first.key),
                      cacheQue := mid.map (Insertion.record env) } := by
    rw [capacityCheck_gt hgt]
    exact RemoveFrontQueItem_cons hqa hfirst
  have hne : env.GetHash last.key ≠ env.GetHash first.key := by
    intro e
    exact hnd'.2 (by simp [e])
  have hlast : mapFind (mapErase sa.cachedPaths (env.GetHash first.key))
      (env.GetHash last.key) = none := by
    rw [mapFind_mapErase_ne _ hne, hout _ hnd'.2]
    rfl
  obtain ⟨s1, hadd, hst, -⟩ :=
    AddPath_fresh last.frameNum last.path last.result last.key hcap hlast
  refine ⟨s1, ?_, ?_⟩
  · rw [List.map_append, runCalls_append, hrun]
    simp only [List.map_cons, List.map_nil, runCalls, Insertion.call, Call.apply, hadd]
  · apply congrArg Prod.fst (GetCachedPath_none _)
    rw [hst, mapFind_mapInsert_ne _ _ hne.symm]
    exact mapFind_mapErase_self _ _

/-- The scenario of C2 with a fourth key: capacity 2, `keyN 0 .. keyN 3`. -/
theorem C2_capacity_eviction_witness :
    [insN 1, insN 2].length = scenarioEnv.maxQueueSize
      ∧ ((insN 0 :: [insN 1, insN 2] ++ [insN 3]).map
          (fun i => scenarioEnv.GetHash i.key)).Nodup
      ∧ ∃ s, runCalls scenarioEnv
            ((insN 0 :: [insN 1, insN 2] ++ [insN 3]).map Insertion.call)
            (CPathCache.new 8 8) = .ok s
          ∧ (GetCachedPath scenarioEnv (insN 0).key s).1 = none :=
  ⟨rfl, by decide,
    C2_capacity_eviction scenarioEnv 8 8 (insN 0) (insN 3) [insN 1, insN 2] rfl (by decide)⟩

/-- C3, as stated, fails: 101 insertions with pairwise distinct hashes into the
empty cache, with the compiled capacity 100, leave 101 records in the queue. -/
theorem C3_counterexample :
    (runCalls sampleEnv (addCalls 101) (CPathCache.new 8 8)).map
        (fun s => (s.cacheQue.length, decide (s.cacheQue.length ≤ MAX_CACHE_QUEUE_SIZE)))
      = .ok (101, false) :=
  rfl

/-- C3, amended (capacity invariant).  In every state reached from the empty
cache by any sequence of `AddPath`, `GetCachedPath` and `Update` calls the
queue holds at most `maxQueueSize + 1` records, that is at most 101 with
`MAX_CACHE_QUEUE_SIZE = 100`. -/
theorem C3_queue_length_bound (env : Env) (cs : List Call) (bx bz : Int) (s : CPathCache)
    (h : runCalls env cs (CPathCache.new bx bz) = .ok s) :
    s.cacheQue.length ≤ env.maxQueueSize + 1
      ∧ (env.maxQueueSize = MAX_CACHE_QUEUE_SIZE → s.cacheQue.length ≤ 101) := by
  have hb := (reachable_inv h).2.2
  refine ⟨hb, fun he => ?_⟩
  rw [he] at hb
  exact hb

/-- An instance of C3: insertions, a lookup and a prune with capacity 2. -/
theorem C3_queue_length_bound_witness :
    runCalls scenarioEnv scenarioCalls (CPathCache.new 8 8) = .ok scenarioState
      ∧ scenarioState.cacheQue.length ≤ scenarioEnv.maxQueueSize + 1 :=
  ⟨rfl, (C3_queue_length_bound scenarioEnv scenarioCalls 8 8 scenarioState rfl).1⟩

/-- C4 (expiry).  Let `s` be reached from the empty cache by calls whose frame
numbers never decrease, let `AddPath p Ok k` be called next at a frame `t` not
below them, and let it store a new entry (no entry under `GetHash k` after the
capacity check).  Then the call succeeds and stores the entry, `Update` at
frame `t + GAME_SPEED * 7 + 1` succeeds, and `GetCachedPath k` after it returns
none. -/
theorem C4_expiry (env : Env) (cs : List Call) (bx bz : Int) (s s0 : CPathCache) (t : Int)
    (p : IPath.Path) (k : CacheKey)
    (hrun : runCalls env cs (CPathCache.new bx bz) = .ok s)
    (hmono : MonotoneTicks (cs ++ [Call.addPath t p .Ok k]))
    (hc : capacityCheck env s = .ok s0)
    (hk : mapFind s0.cachedPaths (env.GetHash k) = none) :
    ∃ s1 s2, AddPath env t p .Ok k s = .ok (false, s1)
      ∧ mapFind s1.cachedPaths (env.GetHash k) = some (CacheItem.make p .Ok k)
      ∧ Update (t + env.GAME_SPEED * 7 + 1) s1 = .ok s2
      ∧ (GetCachedPath env k s2).1 = none := by
  obtain ⟨hi, hn, -⟩ := reachable_inv hrun
  have hm : (ticksOf cs ++ [t]).Pairwise (fun a b => a ≤ b) := by
    have := hmono
    unfold MonotoneTicks at this
    rwa [ticksOf_append] at this
  have hmcs : MonotoneTicks cs := (List.pairwise_append.mp hm).1
  have hle : ∀ x ∈ ticksOf cs, x ≤ t :=
    fun x hx => (List.pairwise_append.mp hm).2.2 x hx t (List.mem_singleton_self t)
  have hbound := (reachable_sorted hrun hmcs).2 t hle
  obtain ⟨s1, hadd, hst, hqu, -⟩ := AddPath_fresh t p .Ok k hc hk
  obtain ⟨b', s1', hadd', hi1, hn1, -⟩ := AddPath_inv env t p .Ok k hi hn
  rw [hadd] at hadd'
  simp only [Except.ok.injEq, Prod.mk.injEq] at hadd'
  obtain ⟨-, hs1⟩ := hadd'
  subst hs1
  have hall : ∀ q ∈ s1.cacheQue, q.timeout < t + env.GAME_SPEED * 7 + 1 := by
    intro q hq
    rw [hqu] at hq
    rcases List.mem_append.mp hq with h1 | h1
    · have := hbound q ((capacityCheck_sublist hc).subset h1)
      omega
    · simp only [List.mem_singleton] at h1
      subst h1
      show t + env.GAME_SPEED * 7 < t + env.GAME_SPEED * 7 + 1
      omega
  obtain ⟨s2, hup, heq, -, -⟩ := Update_inv (t + env.GAME_SPEED * 7 + 1) hi1 hn1
  refine ⟨s1, s2, hadd, ?_, hup, ?_⟩
  · rw [hst]
    exact mapFind_mapInsert_self _ _ _
  · apply congrArg Prod.fst (GetCachedPath_none _)
    subst heq
    show mapFind (eraseAll s1.cachedPaths (expiredPrefix _ s1.cacheQue)) (env.GetHash k) = none
    have hpre : expiredPrefix (t + env.GAME_SPEED * 7 + 1) s1.cacheQue = s1.cacheQue := by
      unfold expiredPrefix
      rw [List.takeWhile_eq_self_iff]
      intro q hq
      simpa using hall q hq
    rw [hpre, mapFind_eraseAll, hqu]
    simp

/-- An instance of C4: after two insertions at frames 0 and 1, `keyN 7` is
inserted at frame 5 and pruned at frame 5 + 210 + 1. -/
theorem C4_expiry_witness :
    runCalls sampleEnv (addCalls 2) (CPathCache.new 8 8) = .ok twoAdded
      ∧ MonotoneTicks (addCalls 2 ++ [Call.addPath 5 (pathN 7) .Ok (keyN 7)])
      ∧ capacityCheck sampleEnv twoAdded = .ok twoAdded
      ∧ mapFind twoAdded.cachedPaths (sampleEnv.GetHash (keyN 7)) = none
      ∧ ∃ s1 s2, AddPath sampleEnv 5 (pathN 7) .Ok (keyN 7) twoAdded = .ok (false, s1)
        ∧ mapFind s1.cachedPaths (sampleEnv.GetHash (keyN 7))
            = some (CacheItem.make (pathN 7) .Ok (keyN 7))
        ∧ Update (5 + sampleEnv.GAME_SPEED * 7 + 1) s1 = .ok s2
        ∧ (GetCachedPath sampleEnv (keyN 7) s2).1 = none :=
  ⟨rfl, by decide, rfl, rfl,
    C4_expiry sampleEnv (addCalls 2) 8 8 twoAdded twoAdded 5 (pathN 7) (keyN 7)
      rfl (by decide) rfl rfl⟩

/-- C5 (collision rejection).  Let `k1 ≠ k2` have the same hash, and let the
cache (queue records all with an entry, as in every reachable state) have an
empty slot for that hash and a queue that is not over capacity, the capacity
being at least 1 (it is 100).  Then `AddPath p1 k1` stores `k1`, the following
`AddPath p2 k2` returns true, `numHashCollisions` grows by exactly 1, the entry
stored for `k1` is the same before and after the second call, and
`GetCachedPath k1` returns that entry, which holds `p1`. -/
theorem C5_collision_rejected (env : Env) (t1 t2 : Int) (p1 p2 : IPath.Path)
    (r1 r2 : IPath.SearchResult) (k1 k2 : CacheKey) (s : CPathCache)
    (hi : QueueInStore s) (hcap : 0 < env.maxQueueSize) (hne : k1 ≠ k2)
    (hh : env.GetHash k1 = env.GetHash k2)
    (hempty : mapFind s.cachedPaths (env.GetHash k1) = none)
    (hlen : s.cacheQue.length ≤ env.maxQueueSize) :
    ∃ s1 s2 s3, AddPath env t1 p1 r1 k1 s = .ok (false, s1)
      ∧ AddPath env t2 p2 r2 k2 s1 = .ok (true, s2)
      ∧ s2.numHashCollisions = s1.numHashCollisions + 1
      ∧ s1.numHashCollisions = s.numHashCollisions
      ∧ mapFind s1.cachedPaths (env.GetHash k1) = some (CacheItem.make p1 r1 k1)
      ∧ mapFind s2.cachedPaths (env.GetHash k1) = some (CacheItem.make p1 r1 k1)
      ∧ GetCachedPath env k1 s2 = (some (CacheItem.make p1 r1 k1), s3)
      ∧ (CacheItem.make p1 r1 k1).path = p1 := by
  obtain ⟨s1, hadd1, hst, hqu, -, -, hcol, -, -⟩ :=
    AddPath_fresh t1 p1 r1 k1 (capacityCheck_le hlen) hempty
  have hf1 : mapFind s1.cachedPaths (env.GetHash k1) = some (CacheItem.make p1 r1 k1) := by
    rw [hst]; exact mapFind_mapInsert_self _ _ _
  have hcheck : ∃ s0, capacityCheck env s1 = .ok s0
      ∧ mapFind s0.cachedPaths (env.GetHash k1) = some (CacheItem.make p1 r1 k1)
      ∧ s0.numHashCollisions = s1.numHashCollisions := by
    by_cases hle : s1.cacheQue.length ≤ env.maxQueueSize
    · exact ⟨s1, capacityCheck_le hle, hf1, rfl⟩
    · have hgt : env.maxQueueSize < s1.cacheQue.length := Nat.lt_of_not_le hle
      cases hq : s.cacheQue with
      | nil =>
        rw [hqu, hq] at hgt
        simp only [List.nil_append, List.length_singleton] at hgt
        omega
      | cons cq rest =>
        have hcq : (mapFind s.cachedPaths cq.hash).isSome = true :=
          hi cq (by rw [hq]; exact List.mem_cons_self _ _)
        have hneq : cq.hash ≠ env.GetHash k1 := by
          intro e
          rw [e, hempty] at hcq
          simp at hcq
        obtain ⟨ci, hci⟩ := Option.isSome_iff_exists.mp hcq
        have hq1 : s1.cacheQue = cq :: (rest ++
            [(⟨env.GetHash k1, t1 + env.GAME_SPEED * 7⟩ : CacheQue)]) := by
          rw [hqu, hq]; rfl
        have hci1 : mapFind s1.cachedPaths cq.hash = some ci := by
          rw [hst, mapFind_mapInsert_ne _ _ hneq]; exact hci
        refine ⟨_, (capacityCheck_gt hgt).trans (RemoveFrontQueItem_cons hq1 hci1), ?_, rfl⟩
        show mapFind (mapErase s1.cachedPaths cq.hash) (env.GetHash k1) = _
        rw [mapFind_mapErase_ne _ hneq.symm]
        exact hf1
  obtain ⟨s0, hc0, hf0, hcol0⟩ := hcheck
  have hadd2 := AddPath_of_some t2 p2 r2 k2 hc0 (hh ▸ hf0)
  have hcoll : HashCollision (CacheItem.make p1 r1 k1) k2 = true := by
    rw [HashCollision_make]; simpa using hne
  rw [hcoll] at hadd2
  refine ⟨s1, _, _, hadd1, hadd2, ?_, hcol, hf1, hf0, GetCachedPath_make hf0, rfl⟩
  show s0.numHashCollisions + (if true = true then 1 else 0) = s1.numHashCollisions + 1
  rw [hcol0]
  rfl

/-- An instance of C5 with the stub hasher on a cache holding another entry
in slot 1: `keyN 1` and `keyN 2` collide in slot 7. -/
theorem C5_collision_rejected_witness :
    QueueInStore { sampleState with cachedPaths := [(1, (insN 1).item)], cacheQue := [⟨1, 215⟩] }
      ∧ 0 < stubEnv.maxQueueSize ∧ keyN 1 ≠ keyN 2
      ∧ stubEnv.GetHash (keyN 1) = stubEnv.GetHash (keyN 2)
      ∧ ∃ s1 s2 s3,
          AddPath stubEnv 10 (pathN 1) .Ok (keyN 1)
              { sampleState with cachedPaths := [(1, (insN 1).item)], cacheQue := [⟨1, 215⟩] }
            = .ok (false, s1)
          ∧ AddPath stubEnv 11 (pathN 2) .Ok (keyN 2) s1 = .ok (true, s2)
          ∧ s2.numHashCollisions = s1.numHashCollisions + 1
          ∧ s1.numHashCollisions = 0
          ∧ mapFind s1.cachedPaths 7 = some (CacheItem.make (pathN 1) .Ok (keyN 1))
          ∧ mapFind s2.cachedPaths 7 = some (CacheItem.make (pathN 1) .Ok (keyN 1))
          ∧ GetCachedPath stubEnv (keyN 1) s2
              = (some (CacheItem.make (pathN 1) .Ok (keyN 1)), s3)
          ∧ (CacheItem.make (pathN 1) .Ok (keyN 1)).path = pathN 1 :=
  ⟨by decide, by decide, by decide, rfl,
    C5_collision_rejected stubEnv 10 11 (pathN 1) (pathN 2) .Ok .Ok (keyN 1) (keyN 2)
      { sampleState with cachedPaths := [(1, (insN 1).item)], cacheQue := [⟨1, 215⟩] }
      (by decide) (by decide) (by decide) rfl rfl (by decide)⟩

/-- C6, as stated, fails.  `keyN 1` and `keyWide 1` differ only in `goalRadius`
and share a hash; on the empty cache `AddPath` stores `keyN 1`, the `AddPath`
of `keyWide 1` is rejected as a collision (it returns true), and
`GetCachedPath (keyWide 1)` is then a hit that returns the entry of `keyN 1`. -/
theorem C6_counterexample :
    keyN 1 ≠ keyWide 1 ∧ stubEnv.GetHash (keyN 1) = stubEnv.GetHash (keyWide 1)
      ∧ (match AddPath stubEnv 0 (pathN 1) .Ok (keyN 1) (CPathCache.new 8 8) with
          | .error _ => none
          | .ok r1 =>
            match AddPath stubEnv 1 (pathN 2) .Ok (keyWide 1) r1.2 with
            | .error _ => none
            | .ok r2 => some (r1.1, r2.1, (GetCachedPath stubEnv (keyWide 1) r2.2).1))
        = some (false, true, some (CacheItem.make (pathN 1) .Ok (keyN 1))) :=
  ⟨by decide, rfl, rfl⟩

/-- C6, amended (a rejected colliding key is not served).  Let `k1` and `k2`
have the same hash and differ in `startBlock`, `goalBlock` or `pathType`.  If
`AddPath p1 k1` stores `k1` (no entry under the hash after the capacity check)
and the next `AddPath p2 k2` is rejected as a collision (returns true), then
`GetCachedPath k2` returns none. -/
theorem C6_rejected_key_not_served (env : Env) (t1 t2 : Int) (p1 p2 : IPath.Path)
    (r1 r2 : IPath.SearchResult) (k1 k2 : CacheKey) (s s0 s1 s2 : CPathCache)
    (hh : env.GetHash k1 = env.GetHash k2)
    (hdiff : k1.startBlock ≠ k2.startBlock ∨ k1.goalBlock ≠ k2.goalBlock
      ∨ k1.pathType ≠ k2.pathType)
    (hc : capacityCheck env s = .ok s0)
    (hk : mapFind s0.cachedPaths (env.GetHash k1) = none)
    (hadd1 : AddPath env t1 p1 r1 k1 s = .ok (false, s1))
    (hadd2 : AddPath env t2 p2 r2 k2 s1 = .ok (true, s2)) :
    GetCachedPath env k2 s2 = (none, { s2 with numCacheMisses := s2.numCacheMisses + 1 }) := by
  obtain ⟨s1', hadd1', hst, -⟩ := AddPath_fresh t1 p1 r1 k1 hc hk
  rw [hadd1] at hadd1'
  simp only [Except.ok.injEq, Prod.mk.injEq, true_and] at hadd1'
  subst hadd1'
  obtain ⟨s0', hc', hcase⟩ := AddPath_ok_cases hadd2
  rcases hcase with ⟨-, hb, -⟩ | ⟨ci, hci, -, heq⟩
  · cases hb
  · have hci1 : ci = CacheItem.make p1 r1 k1 := by
      have hsome : mapFind s1.cachedPaths (env.GetHash k2) = some (CacheItem.make p1 r1 k1) := by
        rw [hst, ← hh]; exact mapFind_mapInsert_self _ _ _
      unfold capacityCheck at hc'
      split at hc'
      · obtain ⟨cq, rest, cj, -, -, hs0'⟩ := RemoveFrontQueItem_ok hc'
        subst hs0'
        have hci' : mapFind (mapErase s1.cachedPaths cq.hash) (env.GetHash k2) = some ci := hci
        rw [mapFind_mapErase] at hci'
        split at hci'
        · cases hci'
        · rw [hsome] at hci'
          exact (Option.some.inj hci').symm
      · cases hc'
        rw [hsome] at hci
        exact (Option.some.inj hci).symm
    subst heq
    subst hci1
    unfold GetCachedPath
    show (match mapFind s0'.cachedPaths (env.GetHash k2) with
      | none => _
      | some ci => _) = _
    rw [hci]
    simp only [CacheItem.make]
    rcases hdiff with h | h | h
    · simp [h]
    · by_cases h1 : k1.startBlock = k2.startBlock <;> simp [h1, h]
    · by_cases h1 : k1.startBlock = k2.startBlock <;>
        by_cases h2 : k1.goalBlock = k2.goalBlock <;> simp [h1, h2, h]

/-- An instance of the amended C6 with the stub hasher: `keyN 1` and `keyN 2`
differ in `startBlock`. -/
theorem C6_rejected_key_not_served_witness :
    stubEnv.GetHash (keyN 1) = stubEnv.GetHash (keyN 2)
      ∧ (keyN 1).startBlock ≠ (keyN 2).startBlock
      ∧ AddPath stubEnv 0 (pathN 1) .Ok (keyN 1) (CPathCache.new 8 8) = .ok (false, stubStored)
      ∧ AddPath stubEnv 1 (pathN 2) .Ok (keyN 2) stubStored = .ok (true, stubCollided)
      ∧ GetCachedPath stubEnv (keyN 2) stubCollided
          = (none, { stubCollided with numCacheMisses := stubCollided.numCacheMisses + 1 }) :=
  ⟨rfl, by decide, rfl, rfl,
    C6_rejected_key_not_served stubEnv 0 1 (pathN 1) (pathN 2) .Ok .Ok (keyN 1) (keyN 2)
      (CPathCache.new 8 8) (CPathCache.new 8 8) stubStored stubCollided
      rfl (Or.inl (by decide)) rfl rfl rfl rfl⟩

/-- C8 (lookup decision).  For every cache state and key `k` with
`h = GetHash k`: `GetCachedPath k` returns none exactly when no entry is stored
at `h` or the stored entry differs from `k` in `startBlock`, `goalBlock` or
`pathType`, and then it adds one to `numCacheMisses` and changes nothing else;
otherwise it returns the entry stored at `h`, adds one to `numCacheHits` and
changes nothing else.  The stored `goalRadius` plays no part in the decision. -/
theorem C8_lookup_decision (env : Env) (k : CacheKey) (s : CPathCache) :
    ((GetCachedPath env k s).1 = none ↔
        (mapFind s.cachedPaths (env.GetHash k) = none
          ∨ ∃ ci, mapFind s.cachedPaths (env.GetHash k) = some ci
              ∧ (ci.startBlock ≠ k.startBlock ∨ ci.goalBlock ≠ k.goalBlock
                  ∨ ci.pathType ≠ k.pathType)))
      ∧ ((GetCachedPath env k s).1 = none →
          (GetCachedPath env k s).2 = { s with numCacheMisses := s.numCacheMisses + 1 })
      ∧ (∀ ci, mapFind s.cachedPaths (env.GetHash k) = some ci →
          ci.startBlock = k.startBlock → ci.goalBlock = k.goalBlock →
          ci.pathType = k.pathType →
          GetCachedPath env k s = (some ci, { s with numCacheHits := s.numCacheHits + 1 })) := by
  cases hf : mapFind s.cachedPaths (env.GetHash k) with
  | none =>
    have hg := GetCachedPath_none hf
    refine ⟨?_, ?_, ?_⟩
    · rw [hg]; simp
    · intro _; rw [hg]
    · intro ci hci; cases hci
  | some cj =>
    unfold GetCachedPath
    simp only [hf]
    by_cases h1 : cj.startBlock = k.startBlock <;> by_cases h2 : cj.goalBlock = k.goalBlock <;>
      by_cases h3 : cj.pathType = k.pathType <;>
      simp [h1, h2, h3]

/-- C9 (successful insert postcondition).  Let `s0` be the state after the
capacity check of `AddPath p r k` at frame `t`, with no entry at
`h = GetHash k`.  Then `AddPath` returns false; the store gains exactly one
binding, at `h`, whose item has the path, result and four key fields of the
arguments; every other slot of the store is as in `s0`; the queue is that of
`s0` with the one record `{h, t + GAME_SPEED * 7}` appended at the back; and
the three counters are those of the state before the call. -/
theorem C9_insert_postcondition (env : Env) (t : Int) (p : IPath.Path)
    (r : IPath.SearchResult) (k : CacheKey) (s s0 : CPathCache)
    (hc : capacityCheck env s = .ok s0)
    (hk : mapFind s0.cachedPaths (env.GetHash k) = none) :
    ∃ s1 ci, AddPath env t p r k s = .ok (false, s1)
      ∧ mapFind s1.cachedPaths (env.GetHash k) = some ci
      ∧ ci.path = p ∧ ci.result = r ∧ ci.startBlock = k.startBlock
      ∧ ci.goalBlock = k.goalBlock ∧ ci.goalRadius = k.goalRadius ∧ ci.pathType = k.pathType
      ∧ s1.cachedPaths.length = s0.cachedPaths.length + 1
      ∧ (∀ h, h ≠ env.GetHash k → mapFind s1.cachedPaths h = mapFind s0.cachedPaths h)
      ∧ s1.cacheQue = s0.cacheQue ++
          [{ hash := env.GetHash k, timeout := t + env.GAME_SPEED * 7 }]
      ∧ s1.numCacheHits = s.numCacheHits ∧ s1.numCacheMisses = s.numCacheMisses
      ∧ s1.numHashCollisions = s.numHashCollisions := by
  obtain ⟨s1, hadd, hst, hqu, h1, h2, h3, -, -⟩ := AddPath_fresh t p r k hc hk
  obtain ⟨c1, c2, c3, -, -⟩ := capacityCheck_counters hc
  refine ⟨s1, CacheItem.make p r k, hadd, ?_, rfl, rfl, rfl, rfl, rfl, rfl, ?_, ?_, hqu,
    h1.trans c1, h2.trans c2, h3.trans c3⟩
  · rw [hst]; exact mapFind_mapInsert_self _ _ _
  · rw [hst]; exact mapInsert_length _ _ _ hk
  · intro h hne
    rw [hst]
    exact mapFind_mapInsert_ne _ _ hne

/-- An instance of C9: `keyN 5` is inserted at frame 40 into a cache holding
two other entries. -/
theorem C9_insert_postcondition_witness :
    capacityCheck sampleEnv sampleState = .ok sampleState
      ∧ mapFind sampleState.cachedPaths (sampleEnv.GetHash (keyN 5)) = none
      ∧ ∃ s1 ci, AddPath sampleEnv 40 (pathN 5) .CannotReach (keyN 5) sampleState
            = .ok (false, s1)
        ∧ mapFind s1.cachedPaths (sampleEnv.GetHash (keyN 5)) = some ci
        ∧ ci.path = pathN 5 ∧ ci.result = .CannotReach
        ∧ ci.startBlock = (keyN 5).startBlock ∧ ci.goalBlock = (keyN 5).goalBlock
        ∧ ci.goalRadius = (keyN 5).goalRadius ∧ ci.pathType = (keyN 5).pathType
        ∧ s1.cachedPaths.length = sampleState.cachedPaths.length + 1
        ∧ (∀ h, h ≠ sampleEnv.GetHash (keyN 5) →
            mapFind s1.cachedPaths h = mapFind sampleState.cachedPaths h)
        ∧ s1.cacheQue = sampleState.cacheQue ++
            [{ hash := sampleEnv.GetHash (keyN 5), timeout := 40 + sampleEnv.GAME_SPEED * 7 }]
        ∧ s1.numCacheHits = sampleState.numCacheHits
        ∧ s1.numCacheMisses = sampleState.numCacheMisses
        ∧ s1.numHashCollisions = sampleState.numHashCollisions :=
  ⟨rfl, rfl,
    C9_insert_postcondition sampleEnv 40 (pathN 5) .CannotReach (keyN 5) sampleState
      sampleState rfl rfl⟩

/-- C10 (prune postcondition).  Let `s` be reached from the empty cache by
calls whose frame numbers never decrease, and let `t` be any frame.  `Update`
at `t` succeeds; every record left in the queue has timeout at least `t`; for
every record with timeout below `t` no record of its hash is left and the
store has no entry under its hash; every record with timeout at least `t` is
still queued and its entry is stored unchanged; the remaining records are the
records with timeout at least `t` in their original order; and the counters
are unchanged. -/
theorem C10_prune_postcondition (env : Env) (cs : List Call) (bx bz : Int)
    (s : CPathCache) (t : Int)
    (hrun : runCalls env cs (CPathCache.new bx bz) = .ok s) (hm : MonotoneTicks cs) :
    ∃ s', Update t s = .ok s'
      ∧ (∀ q ∈ s'.cacheQue, t ≤ q.timeout)
      ∧ (∀ q ∈ s.cacheQue, q.timeout < t →
          (∀ q' ∈ s'.cacheQue, q'.hash ≠ q.hash) ∧ mapFind s'.cachedPaths q.hash = none)
      ∧ (∀ q ∈ s.cacheQue, t ≤ q.timeout →
          q ∈ s'.cacheQue ∧ (mapFind s.cachedPaths q.hash).isSome = true
            ∧ mapFind s'.cachedPaths q.hash = mapFind s.cachedPaths q.hash)
      ∧ s'.cacheQue = s.cacheQue.filter (fun q => decide (t ≤ q.timeout))
      ∧ s'.numCacheHits = s.numCacheHits ∧ s'.numCacheMisses = s.numCacheMisses
      ∧ s'.numHashCollisions = s.numHashCollisions := by
  obtain ⟨hi, hn, -⟩ := reachable_inv hrun
  obtain ⟨hs, -⟩ := reachable_sorted hrun hm
  obtain ⟨s', hup, heq, -, -⟩ := Update_inv t hi hn
  obtain ⟨c1, c2, c3⟩ := Update_counters t hi hn hup
  have hlive := livePart_eq_filter t s.cacheQue hs
  have hexp := expiredPrefix_eq_filter t s.cacheQue hs
  have hq' : s'.cacheQue = s.cacheQue.filter (fun q => decide (t ≤ q.timeout)) := by
    rw [heq]; exact hlive
  have hst' : ∀ h, mapFind s'.cachedPaths h
      = if h ∈ (s.cacheQue.filter (fun c => decide (c.timeout < t))).map CacheQue.hash
        then none else mapFind s.cachedPaths h := by
    intro h
    rw [heq]
    show mapFind (eraseAll s.cachedPaths (expiredPrefix t s.cacheQue)) h = _
    rw [mapFind_eraseAll, hexp]
  have hinj := List.inj_on_of_nodup_map hn
  refine ⟨s', hup, ?_, ?_, ?_, hq', c1, c2, c3⟩
  · intro q hq
    rw [hq'] at hq
    simpa using (List.mem_filter.mp hq).2
  · intro q hq hlt
    constructor
    · intro q2 hq2 he
      rw [hq'] at hq2
      obtain ⟨hmem, hge⟩ := List.mem_filter.mp hq2
      have : q2 = q := hinj hmem hq he
      subst this
      simp only [decide_eq_true_eq] at hge
      omega
    · rw [hst']
      have : q.hash ∈ (s.cacheQue.filter (fun c => decide (c.timeout < t))).map CacheQue.hash :=
        List.mem_map_of_mem _ (List.mem_filter.mpr ⟨hq, by simpa using hlt⟩)
      simp [this]
  · intro q hq hge
    refine ⟨?_, hi q hq, ?_⟩
    · rw [hq']
      exact List.mem_filter.mpr ⟨hq, by simpa using hge⟩
    · rw [hst']
      have : q.hash ∉ (s.cacheQue.filter (fun c => decide (c.timeout < t))).map CacheQue.hash := by
        intro hmem
        obtain ⟨q2, hq2, he⟩ := List.mem_map.mp hmem
        obtain ⟨hmem2, hlt⟩ := List.mem_filter.mp hq2
        have : q2 = q := hinj hmem2 hq he
        subst this
        simp only [decide_eq_true_eq] at hlt
        omega
      simp [this]

/-- An instance of C10: four insertions at frames 0 to 3, pruned at frame 212,
which removes the records with timeouts 210 and 211. -/
theorem C10_prune_postcondition_witness :
    runCalls sampleEnv (addCalls 4) (CPathCache.new 8 8) = .ok fourAdded
      ∧ MonotoneTicks (addCalls 4)
      ∧ ∃ s', Update 212 fourAdded = .ok s'
        ∧ (∀ q ∈ s'.cacheQue, 212 ≤ q.timeout)
        ∧ (∀ q ∈ fourAdded.cacheQue, q.timeout < 212 →
            (∀ q' ∈ s'.cacheQue, q'.hash ≠ q.hash) ∧ mapFind s'.cachedPaths q.hash = none)
        ∧ (∀ q ∈ fourAdded.cacheQue, 212 ≤ q.timeout →
            q ∈ s'.cacheQue ∧ (mapFind fourAdded.cachedPaths q.hash).isSome = true
              ∧ mapFind s'.cachedPaths q.hash = mapFind fourAdded.cachedPaths q.hash)
        ∧ s'.cacheQue = fourAdded.cacheQue.filter (fun q => decide (212 ≤ q.timeout))
        ∧ s'.numCacheHits = fourAdded.numCacheHits
        ∧ s'.numCacheMisses = fourAdded.numCacheMisses
        ∧ s'.numHashCollisions = fourAdded.numHashCollisions :=
  ⟨rfl, by decide,
    C10_prune_postcondition sampleEnv (addCalls 4) 8 8 fourAdded 212 rfl (by decide)⟩

/-- C11 (expiry-order invariant).  In every state reached from the empty cache
by `AddPath`, `GetCachedPath` and `Update` calls whose frame numbers never
decrease, the timeouts of the queue records never decrease from the front of
the queue to its back. -/
theorem C11_expiry_order (env : Env) (cs : List Call) (bx bz : Int) (s : CPathCache)
    (hrun : runCalls env cs (CPathCache.new bx bz) = .ok s) (hm : MonotoneTicks cs) :
    (s.cacheQue.map CacheQue.timeout).Pairwise (fun a b => a ≤ b) :=
  (reachable_sorted hrun hm).1

/-- An instance of C11: the state reached by `steadyCalls`. -/
theorem C11_expiry_order_witness :
    runCalls sampleEnv steadyCalls (CPathCache.new 8 8) = .ok steadyState
      ∧ MonotoneTicks steadyCalls
      ∧ (steadyState.cacheQue.map CacheQue.timeout).Pairwise (fun a b => a ≤ b) :=
  ⟨rfl, by decide, C11_expiry_order sampleEnv steadyCalls 8 8 steadyState rfl (by decide)⟩

/-- C12 (queue/store correspondence).  In every state reached from the empty
cache by `AddPath`, `GetCachedPath` and `Update` calls, a hash occurs in some
record of the expiry queue if and only if the entry store holds an entry under
that hash. -/
theorem C12_queue_store_correspondence (env : Env) (cs : List Call) (bx bz : Int)
    (s : CPathCache) (hrun : runCalls env cs (CPathCache.new bx bz) = .ok s) (h : Nat) :
    (∃ q ∈ s.cacheQue, q.hash = h) ↔ ∃ ci, mapFind s.cachedPaths h = some ci := by
  obtain ⟨hi, -, -⟩ := reachable_inv hrun
  have hs := (storeInQueue_iff s).mp (reachable_storeInQueue hrun)
  constructor
  · rintro ⟨q, hq, rfl⟩
    exact Option.isSome_iff_exists.mp (hi q hq)
  · rintro ⟨ci, hci⟩
    have := hs h (by rw [hci]; rfl)
    obtain ⟨q, hq, he⟩ := List.mem_map.mp this
    exact ⟨q, hq, he⟩

/-- An instance of C12: the state reached by `scenarioCalls`, at the hashes 3
(queued and stored) and 0 (evicted: neither queued nor stored). -/
theorem C12_queue_store_correspondence_witness :
    runCalls scenarioEnv scenarioCalls (CPathCache.new 8 8) = .ok scenarioState
      ∧ ((∃ q ∈ scenarioState.cacheQue, q.hash = 3)
          ↔ ∃ ci, mapFind scenarioState.cachedPaths 3 = some ci)
      ∧ ((∃ q ∈ scenarioState.cacheQue, q.hash = 0)
          ↔ ∃ ci, mapFind scenarioState.cachedPaths 0 = some ci) :=
  ⟨rfl, C12_queue_store_correspondence scenarioEnv scenarioCalls 8 8 scenarioState rfl 3,
    C12_queue_store_correspondence scenarioEnv scenarioCalls 8 8 scenarioState rfl 0⟩

/-- C13 (recent keys survive overflow).  From the empty cache with capacity
`c = maxQueueSize`, and no other call in between, inserting `c + 1` keys with
pairwise distinct hashes succeeds, and afterwards each of the `c` most recently
inserted keys (all but the first) is retrievable: `GetCachedPath` returns its
entry, holding the path it was inserted with. -/
theorem C13_recent_keys_survive (env : Env) (bx bz : Int) (ins : List Insertion)
    (hlen : ins.length = env.maxQueueSize + 1)
    (hnd : (ins.map (fun i => env.GetHash i.key)).Nodup) :
    ∃ s, runCalls env (ins.map Insertion.call) (CPathCache.new bx bz) = .ok s
      ∧ ∀ i ∈ ins.drop 1,
          (GetCachedPath env i.key s).1 = some i.item ∧ i.item.path = i.path := by
  obtain ⟨s, hrun, -, hin, -⟩ :=
    runCalls_insertions env ins (CPathCache.new bx bz) hnd (by intro i _; rfl)
      (by simp [CPathCache.new, hlen])
  refine ⟨s, hrun, fun i hi => ⟨?_, rfl⟩⟩
  have hmem : i ∈ ins := List.mem_of_mem_drop hi
  exact congrArg Prod.fst (GetCachedPath_make (hin i hmem))

/-- The scenario of C13: capacity 2, `keyN 0`, `keyN 1`, `keyN 2`; the lookups
of `keyN 1` and `keyN 2` are hits. -/
theorem C13_recent_keys_survive_witness :
    [insN 0, insN 1, insN 2].length = scenarioEnv.maxQueueSize + 1
      ∧ ([insN 0, insN 1, insN 2].map (fun i => scenarioEnv.GetHash i.key)).Nodup
      ∧ ∃ s, runCalls scenarioEnv ([insN 0, insN 1, insN 2].map Insertion.call)
            (CPathCache.new 8 8) = .ok s
          ∧ ∀ i ∈ [insN 0, insN 1, insN 2].drop 1,
              (GetCachedPath scenarioEnv i.key s).1 = some i.item ∧ i.item.path = i.path :=
  ⟨rfl, by decide,
    C13_recent_keys_survive scenarioEnv 8 8 [insN 0, insN 1, insN 2] rfl (by decide)⟩

/-- C14 (a duplicate insert does not refresh expiry).  Let `s` be reached from
the empty cache by calls whose frame numbers never decrease, let `AddPath k` at
a frame `t` not below them store `k`, and let a second `AddPath` of the same
key, at any frame `t2` (in particular `t ≤ t2 ≤ t + GAME_SPEED * 7`), find the
slot of `k` occupied after its capacity check.  Then the second call returns
false without queueing a record, the one queue record of the hash of `k` still
carries the timeout `t + GAME_SPEED * 7`, `Update` at `t + GAME_SPEED * 7 + 1`
succeeds, and `GetCachedPath k` after it returns none. -/
theorem C14_duplicate_no_refresh (env : Env) (cs : List Call) (bx bz : Int)
    (s s0 s1 s0' : CPathCache) (t t2 : Int) (p p2 : IPath.Path)
    (r r2 : IPath.SearchResult) (k : CacheKey)
    (hrun : runCalls env cs (CPathCache.new bx bz) = .ok s)
    (hmono : MonotoneTicks (cs ++ [Call.addPath t p r k]))
    (hc : capacityCheck env s = .ok s0)
    (hk : mapFind s0.cachedPaths (env.GetHash k) = none)
    (hadd1 : AddPath env t p r k s = .ok (false, s1))
    (hc2 : capacityCheck env s1 = .ok s0')
    (hdup : (mapFind s0'.cachedPaths (env.GetHash k)).isSome = true) :
    ∃ s2 s3, AddPath env t2 p2 r2 k s1 = .ok (false, s2)
      ∧ s2.cacheQue = s0'.cacheQue
      ∧ (⟨env.GetHash k, t + env.GAME_SPEED * 7⟩ : CacheQue) ∈ s2.cacheQue
      ∧ (∀ q ∈ s2.cacheQue, q.hash = env.GetHash k → q.timeout = t + env.GAME_SPEED * 7)
      ∧ Update (t + env.GAME_SPEED * 7 + 1) s2 = .ok s3
      ∧ (GetCachedPath env k s3).1 = none := by
  obtain ⟨hi, hn, -⟩ := reachable_inv hrun
  have hm : (ticksOf cs ++ [t]).Pairwise (fun a b => a ≤ b) := by
    have := hmono
    unfold MonotoneTicks at this
    rwa [ticksOf_append] at this
  have hle : ∀ x ∈ ticksOf cs, x ≤ t :=
    fun x hx => (List.pairwise_append.mp hm).2.2 x hx t (List.mem_singleton_self t)
  have hbound := (reachable_sorted hrun (List.pairwise_append.mp hm).1).2 t hle
  obtain ⟨s1', hadd1', hst, hqu, -⟩ := AddPath_fresh t p r k hc hk
  rw [hadd1] at hadd1'
  simp only [Except.ok.injEq, Prod.mk.injEq, true_and] at hadd1'
  subst hadd1'
  obtain ⟨b1, s1', hadd1'', hi1, hn1, -⟩ := AddPath_inv env t p r k hi hn
  rw [hadd1] at hadd1''
  simp only [Except.ok.injEq, Prod.mk.injEq] at hadd1''
  obtain ⟨-, hs1⟩ := hadd1''
  subst hs1
  have hrec1 : (⟨env.GetHash k, t + env.GAME_SPEED * 7⟩ : CacheQue) ∈ s1.cacheQue := by
    rw [hqu]; simp
  have hall1 : ∀ q ∈ s1.cacheQue, q.timeout ≤ t + env.GAME_SPEED * 7 := by
    intro q hq
    rw [hqu] at hq
    rcases List.mem_append.mp hq with h1 | h1
    · exact hbound q ((capacityCheck_sublist hc).subset h1)
    · simp only [List.mem_singleton] at h1
      subst h1
      exact le_refl _
  obtain ⟨ci, hci⟩ := Option.isSome_iff_exists.mp hdup
  have hci1 : ci = CacheItem.make p r k := by
    have h1 := capacityCheck_find hc2 hci
    rw [hst, mapFind_mapInsert_self] at h1
    exact (Option.some.inj h1).symm
  subst hci1
  have hadd2 := AddPath_of_some t2 p2 r2 k hc2 hci
  have hcoll : HashCollision (CacheItem.make p r k) k = false := by
    rw [HashCollision_make]; simp
  rw [hcoll] at hadd2
  obtain ⟨b2, s2, hadd2', hi2, hn2, -⟩ := AddPath_inv env t2 p2 r2 k hi1 hn1
  rw [hadd2] at hadd2'
  simp only [Except.ok.injEq, Prod.mk.injEq] at hadd2'
  obtain ⟨-, hs2⟩ := hadd2'
  have hq2 : s2.cacheQue = s0'.cacheQue := by rw [← hs2]
  have hsub2 : ∀ q ∈ s2.cacheQue, q ∈ s1.cacheQue := by
    intro q hq
    rw [hq2] at hq
    exact (capacityCheck_sublist hc2).subset hq
  have hrec2 : (⟨env.GetHash k, t + env.GAME_SPEED * 7⟩ : CacheQue) ∈ s2.cacheQue := by
    rw [hq2]
    have hc2' := hc2
    unfold capacityCheck at hc2'
    split at hc2'
    · obtain ⟨cq, rest, cj, hq1, -, heq⟩ := RemoveFrontQueItem_ok hc2'
      subst heq
      have hci' : mapFind (mapErase s1.cachedPaths cq.hash) (env.GetHash k)
          = some (CacheItem.make p r k) := hci
      have hne : env.GetHash k ≠ cq.hash := by
        intro e
        rw [e, mapFind_mapErase_self] at hci'
        cases hci'
      show _ ∈ rest
      rw [hq1] at hrec1
      rcases List.mem_cons.mp hrec1 with h1 | h1
      · exact absurd (congrArg CacheQue.hash h1) hne
      · exact h1
    · cases hc2'
      exact hrec1
  obtain ⟨s3, hup, -, hgone⟩ := Update_all_expired (t + env.GAME_SPEED * 7 + 1) hi2 hn2
    (by
      intro q hq
      have := hall1 q (hsub2 q hq)
      omega)
  refine ⟨s2, s3, by rw [hadd2, hs2], hq2, hrec2, ?_, hup, ?_⟩
  · intro q hq he
    have := List.inj_on_of_nodup_map hn1 (hsub2 q hq) hrec1 he
    rw [this]
  · exact congrArg Prod.fst (GetCachedPath_none (hgone _ hrec2))

/-- An instance of C14: `keyN 7` is inserted at frame 5 after two other
insertions, inserted again at frame 100, and pruned at frame 5 + 210 + 1. -/
theorem C14_duplicate_no_refresh_witness :
    runCalls sampleEnv (addCalls 2) (CPathCache.new 8 8) = .ok twoAdded
      ∧ MonotoneTicks (addCalls 2 ++ [Call.addPath 5 (pathN 7) .Ok (keyN 7)])
      ∧ ∃ s1, AddPath sampleEnv 5 (pathN 7) .Ok (keyN 7) twoAdded = .ok (false, s1)
        ∧ capacityCheck sampleEnv s1 = .ok s1
        ∧ ∃ s2 s3, AddPath sampleEnv 100 (pathN 8) .Ok (keyN 7) s1 = .ok (false, s2)
          ∧ s2.cacheQue = s1.cacheQue
          ∧ (⟨sampleEnv.GetHash (keyN 7), 5 + sampleEnv.GAME_SPEED * 7⟩ : CacheQue)
              ∈ s2.cacheQue
          ∧ (∀ q ∈ s2.cacheQue, q.hash = sampleEnv.GetHash (keyN 7) →
              q.timeout = 5 + sampleEnv.GAME_SPEED * 7)
          ∧ Update (5 + sampleEnv.GAME_SPEED * 7 + 1) s2 = .ok s3
          ∧ (GetCachedPath sampleEnv (keyN 7) s3).1 = none :=
  ⟨rfl, by decide, _, rfl, rfl,
    C14_duplicate_no_refresh sampleEnv (addCalls 2) 8 8 twoAdded twoAdded _ _ 5 100
      (pathN 7) (pathN 8) .Ok .Ok (keyN 7) rfl (by decide) rfl rfl rfl rfl rfl⟩

/-- C15 (the expiry boundary is strict).  Let `s` be reached from the empty
cache, and let it hold the entry that `AddPath p r k` stored at frame `t`
together with its queue record, whose timeout is `t + GAME_SPEED * 7` (the
entry has not been evicted).  Then `Update` at any frame `t' ≤ t + GAME_SPEED * 7`,
in particular at `t + GAME_SPEED * 7` itself, succeeds and leaves the record
and the entry in place, so that `GetCachedPath k` is a hit returning the
entry; and every record that `Update` at `t'` does remove has a timeout
strictly below `t'`. -/
theorem C15_strict_expiry_boundary (env : Env) (cs : List Call) (bx bz : Int)
    (s : CPathCache) (k : CacheKey) (p : IPath.Path) (r : IPath.SearchResult) (t t' : Int)
    (hrun : runCalls env cs (CPathCache.new bx bz) = .ok s)
    (hrec : (⟨env.GetHash k, t + env.GAME_SPEED * 7⟩ : CacheQue) ∈ s.cacheQue)
    (hent : mapFind s.cachedPaths (env.GetHash k) = some (CacheItem.make p r k))
    (ht : t' ≤ t + env.GAME_SPEED * 7) :
    ∃ s', Update t' s = .ok s'
      ∧ (⟨env.GetHash k, t + env.GAME_SPEED * 7⟩ : CacheQue) ∈ s'.cacheQue
      ∧ mapFind s'.cachedPaths (env.GetHash k) = some (CacheItem.make p r k)
      ∧ GetCachedPath env k s'
          = (some (CacheItem.make p r k), { s' with numCacheHits := s'.numCacheHits + 1 })
      ∧ (∀ q ∈ s.cacheQue, q ∉ s'.cacheQue → q.timeout < t') := by
  obtain ⟨hi, hn, -⟩ := reachable_inv hrun
  obtain ⟨s', hup, hq, hf, hrem, -, -, -⟩ := Update_keeps t' hi hn hrec ht
  have hf' : mapFind s'.cachedPaths (env.GetHash k) = some (CacheItem.make p r k) :=
    hf.trans hent
  exact ⟨s', hup, hq, hf', GetCachedPath_make hf', hrem⟩

/-- An instance of C15: `keyN 2` was inserted at frame 2, so its timeout is
212; `Update` at frame 212 keeps it, while the records with timeouts 210 and
211 go. -/
theorem C15_strict_expiry_boundary_witness :
    runCalls sampleEnv (addCalls 3) (CPathCache.new 8 8) = .ok threeAdded
      ∧ (⟨sampleEnv.GetHash (keyN 2), 2 + sampleEnv.GAME_SPEED * 7⟩ : CacheQue)
          ∈ threeAdded.cacheQue
      ∧ (212 : Int) ≤ 2 + sampleEnv.GAME_SPEED * 7
      ∧ ∃ s', Update 212 threeAdded = .ok s'
        ∧ (⟨sampleEnv.GetHash (keyN 2), 2 + sampleEnv.GAME_SPEED * 7⟩ : CacheQue)
            ∈ s'.cacheQue
        ∧ mapFind s'.cachedPaths (sampleEnv.GetHash (keyN 2))
            = some (CacheItem.make (pathN 2) .Ok (keyN 2))
        ∧ GetCachedPath sampleEnv (keyN 2) s'
            = (some (CacheItem.make (pathN 2) .Ok (keyN 2)),
                { s' with numCacheHits := s'.numCacheHits + 1 })
        ∧ (∀ q ∈ threeAdded.cacheQue, q ∉ s'.cacheQue → q.timeout < 212) :=
  ⟨rfl, by decide, by decide,
    C15_strict_expiry_boundary sampleEnv (addCalls 3) 8 8 threeAdded (keyN 2) (pathN 2) .Ok
      2 212 rfl (by decide) rfl (by decide)⟩

/-- C16 (the capacity check is unconditional).  On a state whose queue records
all have their entry (as in every reachable state):
when the queue holds more than `maxQueueSize` records, `AddPath` first removes
the front record and erases its entry, and only then examines the new key in
the state so obtained, whether the key is then stored (slot empty), rejected
as a collision or ignored as a duplicate (slot occupied: nothing else changes
but the collision count);
when the queue holds at most `maxQueueSize` records, the capacity check
changes nothing, and `AddPath` removes no record and no entry. -/
theorem C16_unconditional_capacity_check (env : Env) (t : Int) (p : IPath.Path)
    (r : IPath.SearchResult) (k : CacheKey) (s : CPathCache) (hi : QueueInStore s) :
    (env.maxQueueSize < s.cacheQue.length →
      ∃ cq rest s0 b s', s.cacheQue = cq :: rest
        ∧ capacityCheck env s = .ok s0
        ∧ s0.cacheQue = rest
        ∧ s0.cachedPaths = mapErase s.cachedPaths cq.hash
        ∧ mapFind s0.cachedPaths cq.hash = none
        ∧ AddPath env t p r k s = .ok (b, s')
        ∧ (mapFind s0.cachedPaths (env.GetHash k) = none →
            b = false
            ∧ s'.cachedPaths
                = mapInsert s0.cachedPaths (env.GetHash k) (CacheItem.make p r k)
            ∧ s'.cacheQue
                = rest ++ [{ hash := env.GetHash k, timeout := t + env.GAME_SPEED * 7 }])
        ∧ (∀ ci, mapFind s0.cachedPaths (env.GetHash k) = some ci →
            b = HashCollision ci k ∧ s'.cachedPaths = s0.cachedPaths
            ∧ s'.cacheQue = rest))
    ∧ (s.cacheQue.length ≤ env.maxQueueSize →
      ∃ b s', capacityCheck env s = .ok s
        ∧ AddPath env t p r k s = .ok (b, s')
        ∧ (s'.cacheQue = s.cacheQue
            ∨ s'.cacheQue = s.cacheQue ++
                [{ hash := env.GetHash k, timeout := t + env.GAME_SPEED * 7 }])
        ∧ ∀ h ci, mapFind s.cachedPaths h = some ci →
            mapFind s'.cachedPaths h = some ci) := by
  constructor
  · intro hgt
    cases hq : s.cacheQue with
    | nil => rw [hq] at hgt; simp at hgt
    | cons cq rest =>
      have hfront : (mapFind s.cachedPaths cq.hash).isSome = true :=
        hi cq (by rw [hq]; exact List.mem_cons_self _ _)
      obtain ⟨cj, hcj⟩ := Option.isSome_iff_exists.mp hfront
      have hc : capacityCheck env s
          = .ok { s with cachedPaths := mapErase s.cachedPaths cq.hash, cacheQue := rest } :=
        (capacityCheck_gt hgt).trans (RemoveFrontQueItem_cons hq hcj)
      cases hk : mapFind (mapErase s.cachedPaths cq.hash) (env.GetHash k) with
      | none =>
        refine ⟨cq, rest, _, _, _, rfl, hc, rfl, rfl, mapFind_mapErase_self _ _,
          AddPath_of_none t p r k hc hk, fun _ => ⟨rfl, rfl, rfl⟩, ?_⟩
        intro ci hci
        have hci' : mapFind (mapErase s.cachedPaths cq.hash) (env.GetHash k) = some ci := hci
        rw [hk] at hci'
        cases hci'
      | some ci =>
        refine ⟨cq, rest, _, _, _, rfl, hc, rfl, rfl, mapFind_mapErase_self _ _,
          AddPath_of_some t p r k hc hk, ?_, ?_⟩
        · intro hnone
          have hnone' : mapFind (mapErase s.cachedPaths cq.hash) (env.GetHash k) = none :=
            hnone
          rw [hk] at hnone'
          cases hnone'
        · intro cj' hcj'
          have hcj'' : mapFind (mapErase s.cachedPaths cq.hash) (env.GetHash k) = some cj' :=
            hcj'
          rw [hk] at hcj''
          cases hcj''
          exact ⟨rfl, rfl, rfl⟩
  · intro hle
    have hc : capacityCheck env s = .ok s := capacityCheck_le hle
    cases hk : mapFind s.cachedPaths (env.GetHash k) with
    | none =>
      refine ⟨_, _, hc, AddPath_of_none t p r k hc hk, Or.inr rfl, ?_⟩
      intro h ci hci
      show mapFind (mapInsert s.cachedPaths (env.GetHash k) _) h = some ci
      have hne : h ≠ env.GetHash k := by
        intro e
        rw [e, hk] at hci
        cases hci
      rw [mapFind_mapInsert_ne _ _ hne]
      exact hci
    | some ci =>
      exact ⟨_, _, hc, AddPath_of_some t p r k hc hk, Or.inl rfl, fun h cj hcj => hcj⟩

/-- An instance of C16: `scenarioState` holds three records with capacity 2,
and the new key `keyN 3` is already stored. -/
theorem C16_unconditional_capacity_check_witness :
    QueueInStore scenarioState
      ∧ scenarioEnv.maxQueueSize < scenarioState.cacheQue.length
      ∧ AddPath scenarioEnv 300 (pathN 5) .Ok (keyN 3) scenarioState
          = .ok (false, { scenarioState with
              cachedPaths := [(3, (insN 3).item), (9, (insN 9).item)],
              cacheQue := [⟨3, 213⟩, ⟨9, 219⟩] })
      ∧ ∃ cq rest s0 b s', scenarioState.cacheQue = cq :: rest
        ∧ capacityCheck scenarioEnv scenarioState = .ok s0
        ∧ s0.cacheQue = rest
        ∧ s0.cachedPaths = mapErase scenarioState.cachedPaths cq.hash
        ∧ mapFind s0.cachedPaths cq.hash = none
        ∧ AddPath scenarioEnv 300 (pathN 5) .Ok (keyN 3) scenarioState = .ok (b, s')
        ∧ (mapFind s0.cachedPaths (scenarioEnv.GetHash (keyN 3)) = none →
            b = false
            ∧ s'.cachedPaths = mapInsert s0.cachedPaths (scenarioEnv.GetHash (keyN 3))
                (CacheItem.make (pathN 5) .Ok (keyN 3))
            ∧ s'.cacheQue = rest ++
                [{ hash := scenarioEnv.GetHash (keyN 3),
                   timeout := 300 + scenarioEnv.GAME_SPEED * 7 }])
        ∧ (∀ ci, mapFind s0.cachedPaths (scenarioEnv.GetHash (keyN 3)) = some ci →
            b = HashCollision ci (keyN 3) ∧ s'.cachedPaths = s0.cachedPaths
            ∧ s'.cacheQue = rest) :=
  ⟨by decide, by decide, rfl,
    (C16_unconditional_capacity_check scenarioEnv 300 (pathN 5) .Ok (keyN 3) scenarioState
      (by decide)).1 (by decide)⟩

/-- C17 (statistics arithmetic).  The hit percentage is
`hits / (hits + misses) × 100` when `hits + misses > 0` and 0 when no lookup
has been made.  Three hits and one miss give 75, and so does the state that
`GetCachedPath` produces by three hits and one miss; the cache built by the
constructor gives 0. -/
theorem C17_hit_percentage :
    (∀ s : CPathCache, 0 < s.numCacheHits + s.numCacheMisses →
        GetCacheHitPercentage s
          = (s.numCacheHits : ℚ) / ((s.numCacheHits : ℚ) + (s.numCacheMisses : ℚ)) * 100)
      ∧ (∀ s : CPathCache, s.numCacheHits + s.numCacheMisses = 0 →
          GetCacheHitPercentage s = 0)
      ∧ (∀ s : CPathCache, s.numCacheHits = 3 → s.numCacheMisses = 1 →
          GetCacheHitPercentage s = 75)
      ∧ (∀ bx bz : Int, GetCacheHitPercentage (CPathCache.new bx bz) = 0)
      ∧ runCalls sampleEnv lookupCalls (CPathCache.new 8 8) = .ok lookupState
      ∧ lookupState.numCacheHits = 3 ∧ lookupState.numCacheMisses = 1
      ∧ GetCacheHitPercentage lookupState = 75 := by
  have h75 : ∀ s : CPathCache, s.numCacheHits = 3 → s.numCacheMisses = 1 →
      GetCacheHitPercentage s = 75 := by
    intro s h1 h2
    unfold GetCacheHitPercentage
    rw [h1, h2]
    norm_num
  refine ⟨?_, ?_, h75, ?_, rfl, rfl, rfl, h75 _ rfl rfl⟩
  · intro s hpos
    unfold GetCacheHitPercentage
    rw [if_neg (by omega)]
  · intro s hzero
    unfold GetCacheHitPercentage
    rw [if_pos hzero]
  · intro bx bz
    rfl

/-- C18 (lookups never mutate cached data).  For every cache state and key,
`GetCachedPath` leaves the entry store, the expiry queue, `numHashCollisions`
and the block counts as they are; the state after it is the state before it
with either `numCacheHits` or `numCacheMisses` raised by one; and an entry it
returns is the one stored under the hash of the key. -/
theorem C18_lookup_frame (env : Env) (k : CacheKey) (s : CPathCache) :
    (GetCachedPath env k s).2.cachedPaths = s.cachedPaths
      ∧ (GetCachedPath env k s).2.cacheQue = s.cacheQue
      ∧ (GetCachedPath env k s).2.numHashCollisions = s.numHashCollisions
      ∧ (GetCachedPath env k s).2.blocksX = s.blocksX
      ∧ (GetCachedPath env k s).2.blocksZ = s.blocksZ
      ∧ ((GetCachedPath env k s).2 = { s with numCacheHits := s.numCacheHits + 1 }
          ∨ (GetCachedPath env k s).2 = { s with numCacheMisses := s.numCacheMisses + 1 })
      ∧ (∀ ci, (GetCachedPath env k s).1 = some ci →
          mapFind s.cachedPaths (env.GetHash k) = some ci) := by
  unfold GetCachedPath
  cases hf : mapFind s.cachedPaths (env.GetHash k) with
  | none => simp
  | some cj =>
    by_cases h1 : cj.startBlock = k.startBlock <;> by_cases h2 : cj.goalBlock = k.goalBlock <;>
      by_cases h3 : cj.pathType = k.pathType <;> simp [h1, h2, h3]

/-- C19 (eviction is strictly FIFO).
(1) A successful `RemoveFrontQueItem` removes exactly the front record of the
queue and the entry stored under that record's hash; the other records keep
their order, the other slots of the store and the counters are unchanged.
(2) The capacity check of `AddPath` either changes nothing or is one such
removal, and the rest of `AddPath` removes no record and no entry.
(3) A successful `Update` removes a front part of the queue, record by record
from the front, together with exactly the entries of the removed records.
(4) Hence, in a queue without duplicate hashes (every reachable state), when
`Update` or the capacity check removes a record, every record queued before it
is removed as well. -/
theorem C19_fifo_eviction (env : Env) :
    (∀ s s' : CPathCache, RemoveFrontQueItem s = .ok s' →
      ∃ cq ci, s.cacheQue = cq :: s'.cacheQue
        ∧ mapFind s.cachedPaths cq.hash = some ci
        ∧ s'.cachedPaths = mapErase s.cachedPaths cq.hash
        ∧ mapFind s'.cachedPaths cq.hash = none
        ∧ (∀ h, h ≠ cq.hash → mapFind s'.cachedPaths h = mapFind s.cachedPaths h)
        ∧ s'.numCacheHits = s.numCacheHits ∧ s'.numCacheMisses = s.numCacheMisses
        ∧ s'.numHashCollisions = s.numHashCollisions)
    ∧ (∀ s s0 : CPathCache, capacityCheck env s = .ok s0 →
        (s.cacheQue.length ≤ env.maxQueueSize ∧ s0 = s)
        ∨ (env.maxQueueSize < s.cacheQue.length ∧ RemoveFrontQueItem s = .ok s0))
    ∧ (∀ (t : Int) (p : IPath.Path) (r : IPath.SearchResult) (k : CacheKey)
        (s s' : CPathCache) (b : Bool), AddPath env t p r k s = .ok (b, s') →
        ∃ s0, capacityCheck env s = .ok s0
          ∧ (s'.cacheQue = s0.cacheQue
              ∨ s'.cacheQue = s0.cacheQue ++
                  [{ hash := env.GetHash k, timeout := t + env.GAME_SPEED * 7 }])
          ∧ ∀ h ci, mapFind s0.cachedPaths h = some ci →
              mapFind s'.cachedPaths h = some ci)
    ∧ (∀ (t : Int) (s s' : CPathCache), Update t s = .ok s' →
        ∃ removed, s.cacheQue = removed ++ s'.cacheQue
          ∧ s'.cachedPaths = eraseAll s.cachedPaths removed
          ∧ (∀ q ∈ removed, mapFind s'.cachedPaths q.hash = none)
          ∧ (∀ h, h ∉ removed.map CacheQue.hash →
              mapFind s'.cachedPaths h = mapFind s.cachedPaths h))
    ∧ (∀ (t : Int) (s s' : CPathCache), QueueNodup s →
        (Update t s = .ok s' ∨ capacityCheck env s = .ok s') →
        ∀ pre q post, s.cacheQue = pre ++ q :: post → q ∉ s'.cacheQue →
          ∀ q' ∈ pre, q' ∉ s'.cacheQue) := by
  have hcap : ∀ s s0 : CPathCache, capacityCheck env s = .ok s0 →
      (s.cacheQue.length ≤ env.maxQueueSize ∧ s0 = s)
      ∨ (env.maxQueueSize < s.cacheQue.length ∧ RemoveFrontQueItem s = .ok s0) := by
    intro s s0 hc
    by_cases hgt : env.maxQueueSize < s.cacheQue.length
    · rw [capacityCheck_gt hgt] at hc
      exact Or.inr ⟨hgt, hc⟩
    · have hle : s.cacheQue.length ≤ env.maxQueueSize := Nat.le_of_not_lt hgt
      rw [capacityCheck_le hle] at hc
      cases hc
      exact Or.inl ⟨hle, rfl⟩
  have hupd : ∀ (t : Int) (s s' : CPathCache), Update t s = .ok s' →
      ∃ removed, s.cacheQue = removed ++ s'.cacheQue
        ∧ s'.cachedPaths = eraseAll s.cachedPaths removed := by
    intro t s s' h
    obtain ⟨removed, h1, h2, -⟩ := UpdateLoop_ok_prefix t _ h
    exact ⟨removed, h1, h2⟩
  refine ⟨?_, hcap, ?_, ?_, ?_⟩
  · intro s s' h
    obtain ⟨cq, rest, ci, hq, hf, heq⟩ := RemoveFrontQueItem_ok h
    subst heq
    exact ⟨cq, ci, hq, hf, rfl, mapFind_mapErase_self _ _,
      fun h hne => mapFind_mapErase_ne _ hne, rfl, rfl, rfl⟩
  · intro t p r k s s' b h
    obtain ⟨s0, hc, hcase⟩ := AddPath_ok_cases h
    refine ⟨s0, hc, ?_⟩
    rcases hcase with ⟨hk, -, heq⟩ | ⟨ci, -, -, heq⟩
    · subst heq
      refine ⟨Or.inr rfl, ?_⟩
      intro h ci hci
      show mapFind (mapInsert s0.cachedPaths (env.GetHash k) _) h = some ci
      have hne : h ≠ env.GetHash k := by
        intro e
        rw [e, hk] at hci
        cases hci
      rw [mapFind_mapInsert_ne _ _ hne]
      exact hci
    · subst heq
      exact ⟨Or.inl rfl, fun h cj hcj => hcj⟩
  · intro t s s' h
    obtain ⟨removed, h1, h2⟩ := hupd t s s' h
    refine ⟨removed, h1, h2, ?_, ?_⟩
    · intro q hq
      rw [h2, mapFind_eraseAll]
      simp [List.mem_map_of_mem CacheQue.hash hq]
    · intro x hx
      rw [h2, mapFind_eraseAll]
      simp [hx]
  · intro t s s' hn hor pre q post hsplit hq
    have hrem : ∃ removed, s.cacheQue = removed ++ s'.cacheQue := by
      rcases hor with h | h
      · obtain ⟨removed, h1, -⟩ := hupd t s s' h
        exact ⟨removed, h1⟩
      · rcases hcap s s' h with ⟨-, he⟩ | ⟨-, hr⟩
        · exact ⟨[], by rw [he]; rfl⟩
        · obtain ⟨cq, rest, ci, hq', -, heq⟩ := RemoveFrontQueItem_ok hr
          subst heq
          exact ⟨[cq], hq'⟩
    obtain ⟨removed, h1⟩ := hrem
    have hnd : ((removed ++ s'.cacheQue).map CacheQue.hash).Nodup := by
      rw [← h1]; exact hn
    exact removed_before hnd (h1.symm.trans hsplit) hq

/-- C20 (the internal-invariant failure is unreachable).  Every sequence of
`AddPath`, `GetCachedPath` and `Update` calls runs from the empty cache to a
state without a fault, so no call of `RemoveFrontQueItem` inside it met an
empty queue or a front record without an entry.  In the state reached the
front record, if there is one, has its entry, `RemoveFrontQueItem` succeeds
whenever the queue is not empty, and every further call succeeds. -/
theorem C20_no_fault (env : Env) (cs : List Call) (bx bz : Int) :
    ∃ s, runCalls env cs (CPathCache.new bx bz) = .ok s
      ∧ (∀ cq rest, s.cacheQue = cq :: rest →
          ∃ ci, mapFind s.cachedPaths cq.hash = some ci)
      ∧ (s.cacheQue ≠ [] → ∃ s', RemoveFrontQueItem s = .ok s')
      ∧ (∀ c : Call, ∃ s', c.apply env s = .ok s')
      ∧ (∀ (t : Int) (p : IPath.Path) (r : IPath.SearchResult) (k : CacheKey),
          ∃ b s', AddPath env t p r k s = .ok (b, s'))
      ∧ (∀ t : Int, ∃ s', Update t s = .ok s') := by
  obtain ⟨s, hrun, hi, hn, -⟩ :=
    runCalls_inv env cs (new_inv bx bz).1 (new_inv bx bz).2
  have hfront : ∀ cq rest, s.cacheQue = cq :: rest →
      ∃ ci, mapFind s.cachedPaths cq.hash = some ci := by
    intro cq rest hq
    exact Option.isSome_iff_exists.mp (hi cq (by rw [hq]; exact List.mem_cons_self _ _))
  refine ⟨s, hrun, hfront, ?_, ?_, ?_, ?_⟩
  · intro hne
    cases hq : s.cacheQue with
    | nil => exact absurd hq hne
    | cons cq rest =>
      obtain ⟨ci, hci⟩ := hfront cq rest hq
      exact ⟨_, RemoveFrontQueItem_cons hq hci⟩
  · intro c
    obtain ⟨s', h, -⟩ := Call_apply_inv env c hi hn
    exact ⟨s', h⟩
  · intro t p r k
    obtain ⟨b, s', h, -⟩ := AddPath_inv env t p r k hi hn
    exact ⟨b, s', h⟩
  · intro t
    obtain ⟨s', h, -⟩ := Update_inv t hi hn
    exact ⟨s', h⟩

/-- C21 (actual queue bound).  In every state reached from the empty cache the
queue holds at most `maxQueueSize + 1` records, that is at most 101 with
`MAX_CACHE_QUEUE_SIZE = 100`.  The bound is attained: `maxQueueSize + 1`
insertions with pairwise distinct hashes, and no other call, leave
`maxQueueSize + 1` records queued and as many entries stored, one for each
insertion; in particular the 101 calls `addCalls 101` leave 101 records and
101 entries with the compiled capacity 100. -/
theorem C21_actual_queue_bound :
    (∀ (env : Env) (cs : List Call) (bx bz : Int) (s : CPathCache),
        runCalls env cs (CPathCache.new bx bz) = .ok s →
        s.cacheQue.length ≤ env.maxQueueSize + 1
          ∧ (env.maxQueueSize = MAX_CACHE_QUEUE_SIZE → s.cacheQue.length ≤ 101))
      ∧ (∀ (env : Env) (bx bz : Int) (ins : List Insertion),
          ins.length = env.maxQueueSize + 1 →
          (ins.map (fun i => env.GetHash i.key)).Nodup →
          ∃ s, runCalls env (ins.map Insertion.call) (CPathCache.new bx bz) = .ok s
            ∧ s.cacheQue.length = env.maxQueueSize + 1
            ∧ s.cachedPaths.length = env.maxQueueSize + 1
            ∧ ∀ i ∈ ins, mapFind s.cachedPaths (env.GetHash i.key) = some i.item)
      ∧ ((List.range 101).map (fun n => sampleEnv.GetHash (keyN n))).Nodup
      ∧ (runCalls sampleEnv (addCalls 101) (CPathCache.new 8 8)).map
          (fun s => (s.cacheQue.length, s.cachedPaths.length,
            (List.range 101).all (fun n => (mapFind s.cachedPaths n).isSome)))
        = .ok (101, 101, true) := by
  refine ⟨?_, ?_, by decide, rfl⟩
  · intro env cs bx bz s h
    have hb := (reachable_inv h).2.2
    refine ⟨hb, fun he => ?_⟩
    rw [he] at hb
    exact hb
  · intro env bx bz ins hlen hnd
    obtain ⟨s, hrun, hq, hin, -⟩ :=
      runCalls_insertions env ins (CPathCache.new bx bz) hnd (by intro i _; rfl)
        (by simp [CPathCache.new, hlen])
    have hql : s.cacheQue.length = env.maxQueueSize + 1 := by
      rw [hq]; simp [CPathCache.new, hlen]
    exact ⟨s, hrun, hql, by rw [← reachable_length hrun, hql], hin⟩

/-- C25 (no duplicate records).  In every state reached from the empty cache
no hash occurs in more than one record of the expiry queue, no hash is bound
twice in the entry store, and the queue holds as many records as the store
holds entries. -/
theorem C25_no_duplicate_records (env : Env) (cs : List Call) (bx bz : Int)
    (s : CPathCache) (hrun : runCalls env cs (CPathCache.new bx bz) = .ok s) :
    (s.cacheQue.map CacheQue.hash).Nodup
      ∧ (∀ q ∈ s.cacheQue, ∀ q' ∈ s.cacheQue, q.hash = q'.hash → q = q')
      ∧ (s.cachedPaths.map Prod.fst).Nodup
      ∧ s.cacheQue.length = s.cachedPaths.length := by
  have hn := (reachable_inv hrun).2.1
  exact ⟨hn, fun q hq q' hq' he => List.inj_on_of_nodup_map hn hq hq' he,
    reachable_storeNodup hrun, reachable_length hrun⟩

/-- An instance of C25: the state reached by `steadyCalls`. -/
theorem C25_no_duplicate_records_witness :
    runCalls sampleEnv steadyCalls (CPathCache.new 8 8) = .ok steadyState
      ∧ (steadyState.cacheQue.map CacheQue.hash).Nodup
      ∧ (∀ q ∈ steadyState.cacheQue, ∀ q' ∈ steadyState.cacheQue,
          q.hash = q'.hash → q = q')
      ∧ (steadyState.cachedPaths.map Prod.fst).Nodup
      ∧ steadyState.cacheQue.length = steadyState.cachedPaths.length :=
  ⟨rfl, C25_no_duplicate_records sampleEnv steadyCalls 8 8 steadyState rfl⟩

/-- C22 (meaning of the return value of `AddPath`).  Whenever `AddPath`
returns, with `s0` the state after its capacity check: it returns true exactly
when this call raised `numHashCollisions` (by one), which is exactly when the
slot of the key's hash was occupied and `HashCollision` reported a differing
key; it returns false exactly when the counter is unchanged, which is when the
slot was empty (a new entry is stored) or held an item that `HashCollision`
accepts.  An item with the four key fields of `k` is accepted, so the call
returns false for it.  The two example calls both return false, one storing a
new entry (the queue grows from 2 to 3 records), one ignoring a duplicate. -/
theorem C22_return_value (env : Env) :
    (∀ (t : Int) (p : IPath.Path) (r : IPath.SearchResult) (k : CacheKey)
        (s s' : CPathCache) (b : Bool), AddPath env t p r k s = .ok (b, s') →
        ∃ s0, capacityCheck env s = .ok s0
          ∧ (b = true ↔ s'.numHashCollisions = s.numHashCollisions + 1)
          ∧ (b = false ↔ s'.numHashCollisions = s.numHashCollisions)
          ∧ (b = true ↔ ∃ ci, mapFind s0.cachedPaths (env.GetHash k) = some ci
              ∧ HashCollision ci k = true)
          ∧ (b = false ↔ (mapFind s0.cachedPaths (env.GetHash k) = none
              ∨ ∃ ci, mapFind s0.cachedPaths (env.GetHash k) = some ci
                ∧ HashCollision ci k = false)))
      ∧ (∀ (t : Int) (p : IPath.Path) (r : IPath.SearchResult) (k : CacheKey)
          (s s0 : CPathCache) (ci : CacheItem), capacityCheck env s = .ok s0 →
          mapFind s0.cachedPaths (env.GetHash k) = some ci → ci.key = k →
          ∃ s', AddPath env t p r k s = .ok (false, s')
            ∧ s'.cachedPaths = s0.cachedPaths ∧ s'.cacheQue = s0.cacheQue
            ∧ s'.numHashCollisions = s.numHashCollisions)
      ∧ (AddPath sampleEnv 40 (pathN 5) .Ok (keyN 5) sampleState).map
            (fun res => (res.1, res.2.cacheQue.length)) = .ok (false, 3)
      ∧ (AddPath sampleEnv 40 (pathN 9) .Ok (keyN 1) sampleState).map
            (fun res => (res.1, res.2.cacheQue.length)) = .ok (false, 2) := by
  refine ⟨?_, ?_, rfl, rfl⟩
  · intro t p r k s s' b h
    obtain ⟨s0, hc, hcase⟩ := AddPath_ok_cases h
    obtain ⟨-, -, c3, -, -⟩ := capacityCheck_counters hc
    refine ⟨s0, hc, ?_⟩
    rcases hcase with ⟨hnone, hb, heq⟩ | ⟨ci, hci, hb, heq⟩
    · subst heq hb
      have hcol : s0.numHashCollisions = s.numHashCollisions := c3
      refine ⟨?_, ?_, ?_, ?_⟩
      · constructor
        · intro hf; cases hf
        · intro he
          have he' : s0.numHashCollisions = s.numHashCollisions + 1 := he
          omega
      · exact ⟨fun _ => hcol, fun _ => rfl⟩
      · constructor
        · intro hf; cases hf
        · rintro ⟨ci, hci, -⟩
          rw [hnone] at hci
          cases hci
      · exact ⟨fun _ => Or.inl hnone, fun _ => rfl⟩
    · have hcnt : s'.numHashCollisions
          = s.numHashCollisions + (if HashCollision ci k = true then 1 else 0) := by
        rw [heq, ← c3]
      subst hb
      cases hcoll : HashCollision ci k
      · rw [hcoll] at hcnt
        simp only [Bool.false_eq_true, if_false, Nat.add_zero] at hcnt
        refine ⟨?_, ?_, ?_, ?_⟩
        · constructor
          · intro hf; cases hf
          · intro he; omega
        · exact ⟨fun _ => hcnt, fun _ => rfl⟩
        · constructor
          · intro hf; cases hf
          · rintro ⟨cj, hcj, hj⟩
            rw [hci] at hcj
            cases hcj
            rw [hcoll] at hj
            cases hj
        · exact ⟨fun _ => Or.inr ⟨ci, hci, hcoll⟩, fun _ => rfl⟩
      · rw [hcoll] at hcnt
        simp only [if_true] at hcnt
        refine ⟨?_, ?_, ?_, ?_⟩
        · exact ⟨fun _ => hcnt, fun _ => rfl⟩
        · constructor
          · intro hf; cases hf
          · intro he; omega
        · exact ⟨fun _ => ⟨ci, hci, hcoll⟩, fun _ => rfl⟩
        · constructor
          · intro hf; cases hf
          · rintro (hnone | ⟨cj, hcj, hj⟩)
            · rw [hci] at hnone
              cases hnone
            · rw [hci] at hcj
              cases hcj
              rw [hcoll] at hj
              cases hj
  · intro t p r k s s0 ci hc hf hkey
    obtain ⟨-, -, c3, -, -⟩ := capacityCheck_counters hc
    have hcoll : HashCollision ci k = false := by
      rw [HashCollision_eq_false, ← hkey]
      exact ⟨rfl, rfl, rfl, rfl⟩
    have hadd := AddPath_of_some t p r k hc hf
    rw [hcoll] at hadd
    refine ⟨_, hadd, rfl, rfl, ?_⟩
    show s0.numHashCollisions + (if false = true then 1 else 0) = s.numHashCollisions
    simpa using c3

/-- C24 (stored entries sit under their own hash).  In every state reached
from the empty cache each item stored under a hash `h` has key fields whose
`GetHash` is `h`; consequently every hit of `GetCachedPath k` returns an item
whose `startBlock`, `goalBlock` and `pathType` are those of `k` and whose own
key hashes to `GetHash k`. -/
theorem C24_entries_under_own_hash (env : Env) (cs : List Call) (bx bz : Int)
    (s : CPathCache) (hrun : runCalls env cs (CPathCache.new bx bz) = .ok s) :
    (∀ h ci, mapFind s.cachedPaths h = some ci →
        env.GetHash ⟨ci.startBlock, ci.goalBlock, ci.goalRadius, ci.pathType⟩ = h)
      ∧ (∀ k ci, (GetCachedPath env k s).1 = some ci →
          ci.startBlock = k.startBlock ∧ ci.goalBlock = k.goalBlock
            ∧ ci.pathType = k.pathType
            ∧ env.GetHash ⟨ci.startBlock, ci.goalBlock, ci.goalRadius, ci.pathType⟩
                = env.GetHash k) := by
  have he : EntriesHashed env s :=
    runCalls_entriesHashed env cs (by intro h ci hf; simp [CPathCache.new, mapFind] at hf) hrun
  refine ⟨fun h ci hf => he h ci hf, ?_⟩
  intro k ci hhit
  obtain ⟨hf, h1, h2, h3⟩ := GetCachedPath_some hhit
  exact ⟨h1, h2, h3, he _ ci hf⟩

/-- An instance of C24: the state reached by `steadyCalls`. -/
theorem C24_entries_under_own_hash_witness :
    runCalls sampleEnv steadyCalls (CPathCache.new 8 8) = .ok steadyState
      ∧ (∀ h ci, mapFind steadyState.cachedPaths h = some ci →
          sampleEnv.GetHash ⟨ci.startBlock, ci.goalBlock, ci.goalRadius, ci.pathType⟩ = h)
      ∧ (∀ k ci, (GetCachedPath sampleEnv k steadyState).1 = some ci →
          ci.startBlock = k.startBlock ∧ ci.goalBlock = k.goalBlock
            ∧ ci.pathType = k.pathType
            ∧ sampleEnv.GetHash ⟨ci.startBlock, ci.goalBlock, ci.goalRadius, ci.pathType⟩
                = sampleEnv.GetHash k) :=
  ⟨rfl, C24_entries_under_own_hash sampleEnv steadyCalls 8 8 steadyState rfl⟩

/-- C26 (counter accounting).  Every `GetCachedPath` call raises exactly one
of `numCacheHits` and `numCacheMisses`, by exactly one, and leaves
`numHashCollisions`; hence after any sequence of calls from the empty cache
`numCacheHits + numCacheMisses` is the number of `GetCachedPath` calls made.
`AddPath` changes neither `numCacheHits` nor `numCacheMisses` and raises
`numHashCollisions` by zero or one.  `Update` changes none of the three
counters. -/
theorem C26_counter_accounting (env : Env) :
    (∀ (k : CacheKey) (s : CPathCache),
        (((GetCachedPath env k s).2.numCacheHits = s.numCacheHits + 1
            ∧ (GetCachedPath env k s).2.numCacheMisses = s.numCacheMisses)
          ∨ ((GetCachedPath env k s).2.numCacheHits = s.numCacheHits
            ∧ (GetCachedPath env k s).2.numCacheMisses = s.numCacheMisses + 1))
        ∧ (GetCachedPath env k s).2.numHashCollisions = s.numHashCollisions)
      ∧ (∀ (cs : List Call) (bx bz : Int) (s : CPathCache),
          runCalls env cs (CPathCache.new bx bz) = .ok s →
          s.numCacheHits + s.numCacheMisses = lookupCount cs)
      ∧ (∀ (t : Int) (p : IPath.Path) (r : IPath.SearchResult) (k : CacheKey)
          (s s' : CPathCache) (b : Bool), AddPath env t p r k s = .ok (b, s') →
          s'.numCacheHits = s.numCacheHits ∧ s'.numCacheMisses = s.numCacheMisses
            ∧ (s'.numHashCollisions = s.numHashCollisions
                ∨ s'.numHashCollisions = s.numHashCollisions + 1))
      ∧ (∀ (t : Int) (s s' : CPathCache), Update t s = .ok s' →
          s'.numCacheHits = s.numCacheHits ∧ s'.numCacheMisses = s.numCacheMisses
            ∧ s'.numHashCollisions = s.numHashCollisions)
      ∧ (runCalls sampleEnv lookupCalls (CPathCache.new 8 8)).map
            (fun s => (s.numCacheHits, s.numCacheMisses, lookupCount lookupCalls))
          = .ok (3, 1, 4) := by
  refine ⟨?_, ?_, ?_, ?_, rfl⟩
  · intro k s
    unfold GetCachedPath
    cases mapFind s.cachedPaths (env.GetHash k) with
    | none => simp
    | some ci =>
      by_cases h1 : ci.startBlock = k.startBlock <;>
        by_cases h2 : ci.goalBlock = k.goalBlock <;>
        by_cases h3 : ci.pathType = k.pathType <;> simp [h1, h2, h3]
  · intro cs bx bz s h
    have := runCalls_counters env cs h
    simpa [CPathCache.new] using this
  · intro t p r k s s' b h
    obtain ⟨s0, hc, hcase⟩ := AddPath_ok_cases h
    obtain ⟨c1, c2, c3, -, -⟩ := capacityCheck_counters hc
    rcases hcase with ⟨-, -, heq⟩ | ⟨ci, -, -, heq⟩
    · subst heq
      exact ⟨c1, c2, Or.inl c3⟩
    · subst heq
      refine ⟨c1, c2, ?_⟩
      cases HashCollision ci k
      · left
        show s0.numHashCollisions + (if false = true then 1 else 0) = s.numHashCollisions
        simpa using c3
      · right
        show s0.numHashCollisions + (if true = true then 1 else 0) = s.numHashCollisions + 1
        simpa using c3
  · intro t s s' h
    obtain ⟨removed, -, -, -, h4, h5, h6⟩ := UpdateLoop_ok_prefix t _ h
    exact ⟨h4, h5, h6⟩

/-- C27 (pruning composes and is idempotent).  For every cache state and all
frames `t1 ≤ t2`, `Update` at `t1` followed by `Update` at `t2` gives the
result of a single `Update` at `t2` (the same state, or the same fault where
the state breaks the queue/store correspondence), and `Update` at `t2` run
twice gives the result of running it once.  On a state whose queue records
all have their entry and carry pairwise distinct hashes (every reachable
state) all these updates succeed, with one and the same final state. -/
theorem C27_prune_composes (s : CPathCache) (t1 t2 : Int) (h12 : t1 ≤ t2) :
    (match Update t1 s with
      | .error e => .error e
      | .ok s1 => Update t2 s1) = Update t2 s
    ∧ (match Update t2 s with
        | .error e => .error e
        | .ok s1 => Update t2 s1) = Update t2 s
    ∧ (QueueInStore s → QueueNodup s →
        ∃ s1 s2, Update t1 s = .ok s1 ∧ Update t2 s1 = .ok s2
          ∧ Update t2 s = .ok s2 ∧ Update t2 s2 = .ok s2) := by
  have hA := UpdateLoop_then_Update t1 t2 h12 (s.cacheQue.length + 1) s (Nat.lt_succ_self _)
  have hB := UpdateLoop_then_Update t2 t2 (le_refl _) (s.cacheQue.length + 1) s
    (Nat.lt_succ_self _)
  refine ⟨hA, hB, ?_⟩
  intro hi hn
  obtain ⟨s1, h1, -, -, -⟩ := Update_inv t1 hi hn
  obtain ⟨s2, h2, -, -, -⟩ := Update_inv t2 hi hn
  have hA' : (match Update t1 s with
      | .error e => .error e
      | .ok s1 => Update t2 s1) = Update t2 s := hA
  have hB' : (match Update t2 s with
      | .error e => .error e
      | .ok s1 => Update t2 s1) = Update t2 s := hB
  rw [h1] at hA'
  rw [h2] at hB'
  simp only [] at hA' hB'
  exact ⟨s1, s2, h1, by rw [hA', h2], h2, hB'⟩

/-- An instance of C27: four records with timeouts 210 to 213, pruned at
frame 211 and then at frame 213, or at frame 213 at once. -/
theorem C27_prune_composes_witness :
    (211 : Int) ≤ 213
      ∧ QueueInStore fourAdded ∧ QueueNodup fourAdded
      ∧ Update 211 fourAdded
          = .ok { fourAdded with
              cachedPaths := [(1, (insN 1).item), (2, (insN 2).item), (3, (insN 3).item)],
              cacheQue := [⟨1, 211⟩, ⟨2, 212⟩, ⟨3, 213⟩] }
      ∧ Update 213 fourAdded
          = .ok { fourAdded with
              cachedPaths := [(3, (insN 3).item)], cacheQue := [⟨3, 213⟩] }
      ∧ (match Update 211 fourAdded with
          | .error e => .error e
          | .ok s1 => Update 213 s1) = Update 213 fourAdded
      ∧ (match Update 213 fourAdded with
          | .error e => .error e
          | .ok s1 => Update 213 s1) = Update 213 fourAdded :=
  ⟨by decide, by decide, by decide, rfl, rfl,
    (C27_prune_composes fourAdded 211 213 (by decide)).1,
    (C27_prune_composes fourAdded 211 213 (by decide)).2.1⟩

/-- C28 (`Update` terminates).  For every cache state and frame the loop of
`Update` ends within the `length + 1` tests of its condition that `Update`
allows: it never runs out of fuel and never pops an empty queue, and more
fuel does not change its result.  Each successful `RemoveFrontQueItem`
shortens the queue by exactly one record, so a run of the loop that ends in a
state has made as many removals as the queue has lost records, at most the
length of the queue on entry.  On a state whose queue records all have their
entry and carry pairwise distinct hashes (every reachable state) the loop
ends in a state. -/
theorem C28_update_terminates (t : Int) (s : CPathCache) :
    Update t s ≠ .error .outOfFuel
      ∧ Update t s ≠ .error .emptyQueue
      ∧ (∀ fuel, s.cacheQue.length < fuel → UpdateLoop t fuel s = Update t s)
      ∧ (∀ s1, RemoveFrontQueItem s = .ok s1 → s1.cacheQue.length + 1 = s.cacheQue.length)
      ∧ (UpdateLoopSteps t (s.cacheQue.length + 1) s).map Prod.fst = Update t s
      ∧ (∀ s' n, UpdateLoopSteps t (s.cacheQue.length + 1) s = .ok (s', n) →
          Update t s = .ok s' ∧ n ≤ s.cacheQue.length
            ∧ s'.cacheQue.length + n = s.cacheQue.length)
      ∧ (QueueInStore s → QueueNodup s →
          ∃ s' n, UpdateLoopSteps t (s.cacheQue.length + 1) s = .ok (s', n)
            ∧ Update t s = .ok s') := by
  have hfault := UpdateLoop_faults t (s.cacheQue.length + 1) s (Nat.lt_succ_self _)
  have hfst := UpdateLoopSteps_fst t (s.cacheQue.length + 1) s
  refine ⟨?_, ?_, ?_, ?_, hfst, ?_, ?_⟩
  · intro h
    have := hfault _ h
    cases this
  · intro h
    have := hfault _ h
    cases this
  · intro fuel hf
    exact UpdateLoop_fuel t fuel (s.cacheQue.length + 1) s hf (Nat.lt_succ_self _)
  · intro s1 h
    obtain ⟨cq, rest, ci, hq, -, heq⟩ := RemoveFrontQueItem_ok h
    rw [heq, hq]
    rfl
  · intro s' n h
    have hc := UpdateLoopSteps_count t _ s s' n h
    refine ⟨?_, by omega, hc⟩
    have hfst' : (UpdateLoopSteps t (s.cacheQue.length + 1) s).map Prod.fst = Update t s :=
      hfst
    rw [h] at hfst'
    exact hfst'.symm
  · intro hi hn
    obtain ⟨s', hup, -⟩ := Update_inv t hi hn
    have hfst' : (UpdateLoopSteps t (s.cacheQue.length + 1) s).map Prod.fst = Update t s :=
      hfst
    cases hl : UpdateLoopSteps t (s.cacheQue.length + 1) s with
    | error e =>
      rw [hl, hup] at hfst'
      cases hfst'
    | ok res =>
      obtain ⟨s2, n⟩ := res
      rw [hl, hup] at hfst'
      have : s2 = s' := by
        simpa [Except.map] using hfst'
      subst this
      exact ⟨s2, n, rfl, hup⟩

end PathCache
